import Mathlib

/-!
# mongoimport: the concurrent import pipeline

A shallow embedding of `files/glob.go` (the `Glob` file provider) and of
`workers.go` (`produceJobs`, `worker`, `processFile`), with theorems about the
behaviour of that code.

Conventions of the embedding.

* A Go `error` value is a `GoError`; the nil error is `none : Option GoError`.
  `io.EOF` is the constructor `GoError.EOF`; an error built by `fmt.Errorf` or
  returned by a collaborator is `GoError.errorf msg`, which is never equal to
  `io.EOF`.
* A run-time panic (index out of range, negative `make` length) is the
  `Except.error` case of `Except Panic _`.
* Counters that the code only sets to `0`, to a `len(...)` or increments
  (`index`, `matchCount`, `Succeeded`, `Failed`, `batched`) are `Nat`; they stay
  far below `2^63` on every run, so no wrap-around is modelled. Sizes that come
  from the configuration (`batchSize`, `MaxParallelism`) are `Int`, and arithmetic
  on them wraps around as that of the 64-bit Go `int` does (`wrapInt64`).
* `make([]interface{}, n)` panics for a negative `n` and for an `n` above what the
  platform can allocate; that limit is the parameter `Env.maxSliceLen`.
* A channel send is an append to the list of values sent, in order.
-/

namespace Mongoimport

/-- Go error values: the sentinel `io.EOF`, or any other error, told apart by its text. -/
inductive GoError where
  | EOF
  | errorf (msg : String)
  deriving DecidableEq, Repr

/-- The text of a run-time panic. -/
abbrev Panic := String

/-! ## files/glob.go -/

/-- The struct `Glob` of files/glob.go. -/
structure Glob where
  Pattern : String
  «matches» : List String
  index : Nat
  matchCount : Nat
  deriving DecidableEq, Repr

/-- The value `Glob{Pattern: pattern}` a caller builds: every other field is zero. -/
def Glob.new (pattern : String) : Glob :=
  { Pattern := pattern, «matches» := [], index := 0, matchCount := 0 }

/-- `Glob.Prepare` (glob.go 17-25). `glob` stands for `filepath.Glob` on the file system
at hand. The result is the returned error and the provider after the call. -/
def Glob.Prepare (glob : String → Except GoError (List String)) (provider : Glob) :
    Option GoError × Glob :=
  match glob provider.Pattern with
  | .error err => (some err, provider)
  | .ok ms => (none, { provider with «matches» := ms, matchCount := ms.length })

/-- What one call of `NextFile` hands back: the two returned values and the provider after
the call. -/
structure NextFileResult where
  file : String
  err : Option GoError
  provider : Glob
  deriving DecidableEq, Repr

/-- `Glob.NextFile` (glob.go 28-34). The indexing `provider.matches[provider.index]`
panics when the index is not below the length of the slice. -/
def Glob.NextFile (provider : Glob) : Except Panic NextFileResult :=
  if provider.matchCount ≤ provider.index + 1 then
    .ok { file := "", err := some (.errorf "No more files"), provider := provider }
  else
    let provider := { provider with index := provider.index + 1 }
    match provider.«matches»[provider.index]? with
    | some file => .ok { file := file, err := none, provider := provider }
    | none => .error "index out of range"

/-- The returned values of `n` successive `NextFile` calls on one provider, in call order,
and the provider after the last call. -/
def Glob.nextFiles : Nat → Glob → Except Panic (List (String × Option GoError) × Glob)
  | 0, provider => .ok ([], provider)
  | n + 1, provider =>
    match provider.NextFile with
    | .error p => .error p
    | .ok r =>
      match Glob.nextFiles n r.provider with
      | .error p => .error p
      | .ok (rs, provider) => .ok ((r.file, r.err) :: rs, provider)

/-- The provider `Glob{Pattern: pattern}` after a `Prepare` that found `ms`. -/
def Glob.prepared (pattern : String) (ms : List String) : Glob :=
  (Glob.Prepare (fun _ => .ok ms) (Glob.new pattern)).2

/-! ## workers.go: processFile -/

/-- The struct `PartialResult`, as `processFile` fills it. `Elapsed` is wall-clock time and is
left out. -/
structure PartialResult where
  File : String
  Collection : String
  Succeeded : Nat
  Failed : Nat
  errors : List GoError
  deriving DecidableEq, Repr

/-- A `*mongo.Collection` handle: `dbClient.Database(database).Collection(name)`. -/
structure Collection where
  database : String
  name : String
  deriving DecidableEq, Repr

/-- The fields of `Datasource` that `produceJobs` and `processFile` read. The two hooks
return a value and an error; the value is looked at only when the error is nil. -/
structure Datasource (Entry Dumped : Type) where
  FileProvider : Glob
  Collection : String
  IgnoreErrors : Bool
  PostLoad : Entry → Except GoError Entry
  PreDump : Entry → Except GoError Dumped

/-- The two values one `loader.Load()` call returns. -/
structure LoadResult (Entry : Type) where
  entry : Entry
  err : Option GoError
  deriving DecidableEq, Repr

/-- A loader created for one file, given by the results of its successive `Load` calls.
Once the list is consumed every further `Load` reports `io.EOF`. -/
abbrev Loader (Entry : Type) := List (LoadResult Entry)

/-- The collaborators of `processFile` that are package-level functions: `openFile`, and
`insert`, whose outcome may depend on the collection, on how many `insert` calls this run
made before, and on the batch. `maxSliceLen` is the largest length for which
`make([]interface{}, n)` returns on the platform at hand; above it `make` panics. -/
structure Env (File Dumped : Type) where
  openFile : String → Except GoError File
  insert : Collection → Nat → List (Option Dumped) → Option GoError
  maxSliceLen : Nat

/-- The local variables of `processFile` while it runs (`result`, `batch`, `batched`),
together with a record of the calls made so far: `loads` counts the `Load` calls,
`observed` those of them that returned something other than `io.EOF`, `hooked` lists the
entries handed to `PostLoad`, `inserts` lists the batches handed to `insert`. A slot of
`batch` that was never stored to holds the nil interface value, `none`. -/
structure ProcState (Entry Dumped : Type) where
  result : PartialResult
  batch : List (Option Dumped)
  batched : Nat
  loads : Nat
  observed : Nat
  hooked : List Entry
  inserts : List (List (Option Dumped))

/-- The statements shared by the two flushes (workers.go 148-153 and 193-198):
`insert(collection, batch[:batched])`, the error, if any, appended to `result.errors`, then
`result.Succeeded += batched`. The slice expression panics when `batched` exceeds the
capacity of `batch`. -/
def flush {File Entry Dumped : Type} (env : Env File Dumped) (collection : Collection)
    (st : ProcState Entry Dumped) : Except Panic (ProcState Entry Dumped) :=
  if st.batched ≤ st.batch.length then
    let slice := st.batch.take st.batched
    let errors :=
      match env.insert collection st.inserts.length slice with
      | some err => st.result.errors ++ [err]
      | none => st.result.errors
    .ok { st with
      result := { st.result with errors := errors, Succeeded := st.result.Succeeded + st.batched }
      inserts := st.inserts ++ [slice] }
  else
    .error "slice bounds out of range"

/-- The part of the loop body after the `if exit` block (workers.go 157-200): the two hooks,
the store `batch[batched] = dumped`, `batched++`, and the flush of a full batch. Every
path through it that does not panic goes on to the next iteration. -/
def transformAndBatch {File Entry Dumped : Type} (s : Datasource Entry Dumped)
    (env : Env File Dumped) (collection : Collection) (batchSize : Int) (entry : Entry)
    (st : ProcState Entry Dumped) : Except Panic (ProcState Entry Dumped) :=
  let st := { st with hooked := st.hooked ++ [entry] }
  match s.PostLoad entry with
  | .error _ => .ok { st with result := { st.result with Failed := st.result.Failed + 1 } }
  | .ok loaded =>
    match s.PreDump loaded with
    | .error _ => .ok { st with result := { st.result with Failed := st.result.Failed + 1 } }
    | .ok dumped =>
      if st.batched < st.batch.length then
        let st := { st with batch := st.batch.set st.batched (some dumped),
                            batched := st.batched + 1 }
        if (st.batched : Int) = batchSize then
          match flush env collection st with
          | .error p => .error p
          | .ok st => .ok { st with batched := 0 }
        else
          .ok st
      else
        .error "index out of range"

/-- The `for` loop of `processFile` (workers.go 126-201), one iteration per `Load` call.
A decode error of a source that is not error-tolerant executes `break` inside the
`switch`, which leaves the `switch` only: `exit` is still false and the iteration goes on
with the hooks, applied to the entry that came with the error. -/
def processLoop {File Entry Dumped : Type} (s : Datasource Entry Dumped)
    (env : Env File Dumped) (collection : Collection) (batchSize : Int) :
    Loader Entry → ProcState Entry Dumped → Except Panic (ProcState Entry Dumped)
  | [], st => flush env collection { st with loads := st.loads + 1 }
  | r :: rest, st =>
    let st := { st with loads := st.loads + 1 }
    match r.err with
    | some .EOF => flush env collection st
    | some err =>
      let st := { st with
        observed := st.observed + 1
        result := { st.result with Failed := st.result.Failed + 1,
                                   errors := st.result.errors ++ [err] } }
      if s.IgnoreErrors then
        processLoop s env collection batchSize rest st
      else
        match transformAndBatch s env collection batchSize r.entry st with
        | .error p => .error p
        | .ok st => processLoop s env collection batchSize rest st
    | none =>
      let st := { st with observed := st.observed + 1 }
      match transformAndBatch s env collection batchSize r.entry st with
      | .error p => .error p
      | .ok st => processLoop s env collection batchSize rest st

/-- The state in which `processFile` enters its loop, and in which it returns early: no
call made yet. -/
def ProcState.init {Entry Dumped : Type} (result : PartialResult)
    (batch : List (Option Dumped)) : ProcState Entry Dumped :=
  { result := result, batch := batch, batched := 0, loads := 0, observed := 0,
    hooked := [], inserts := [] }

/-- `Datasource.processFile` (workers.go 98-206). `ldr` stands for `ldr.Create`, which
builds the loader of an opened file. `make([]interface{}, batchSize)` panics on a
negative length and on a length above `env.maxSliceLen`. The returned state holds the
`PartialResult` and the record of the calls made. -/
def processFile {File Entry Dumped : Type} (s : Datasource Entry Dumped)
    (env : Env File Dumped) (filename : String) (ldr : File → Except GoError (Loader Entry))
    (collection : Collection) (batchSize : Int) : Except Panic (ProcState Entry Dumped) :=
  let result : PartialResult :=
    { File := filename, Collection := s.Collection, Succeeded := 0, Failed := 0, errors := [] }
  match env.openFile filename with
  | .error err => .ok (ProcState.init { result with errors := result.errors ++ [err] } [])
  | .ok file =>
    match ldr file with
    | .error err => .ok (ProcState.init { result with errors := result.errors ++ [err] } [])
    | .ok loader =>
      if batchSize < 0 ∨ (env.maxSliceLen : Int) < batchSize then
        .error "makeslice: len out of range"
      else
        processLoop s env collection batchSize loader
          (ProcState.init result (List.replicate batchSize.toNat none))

/-! ## workers.go: produceJobs -/

/-- The struct `ImportJob`. The pointers `Source` and `Loader` (`&s.Loader`) both point into
one element of `i.Sources`; `Source` is the position of that element. -/
structure ImportJob where
  Source : Nat
  File : String
  InsertionBatchSize : Int
  IgnoreErrors : Bool
  Collection : Collection
  deriving DecidableEq, Repr

/-- The fields of `Import` that `produceJobs` reads, with its two helper methods
`sourceDatabaseName` and `sourceBatchSize`. -/
structure Import (Entry Dumped : Type) where
  Sources : List (Datasource Entry Dumped)
  MaxParallelism : Int
  IgnoreErrors : Bool
  sourceDatabaseName : Datasource Entry Dumped → Except GoError String
  sourceBatchSize : Datasource Entry Dumped → Int

/-- The value of a Go `int` expression whose mathematical value is `x`: 64-bit two's
complement wrap-around into the range from `-2^63` to `2^63 - 1`. -/
def wrapInt64 (x : Int) : Int :=
  (x + 9223372036854775808) % 18446744073709551616 - 9223372036854775808

/-- The variables of one round of the producer (`done`, `produced`), the jobs sent on
`jobChan` so far and the errors logged with `log.Warn` so far. `pulled` is a record of the
run, not a variable of the code: the number of files `NextFile` handed out in this round. -/
structure RoundState where
  done : Bool
  produced : Int
  jobChan : List ImportJob
  warnings : List GoError
  pulled : Nat
  deriving DecidableEq, Repr

/-- The body of the inner loop `for _, s := range i.Sources` (workers.go 35-61) for the
source at position `k`: the source after the `NextFile` call and the round state. The
product `2*i.MaxParallelism` is a Go `int` and wraps around. -/
def produceStep {Entry Dumped : Type} (i : Import Entry Dumped) (k : Nat)
    (s : Datasource Entry Dumped) (st : RoundState) :
    Except Panic (Datasource Entry Dumped × RoundState) :=
  if st.produced > wrapInt64 (2 * i.MaxParallelism) then
    .ok (s, st)
  else
    match s.FileProvider.NextFile with
    | .error p => .error p
    | .ok r =>
      let s := { s with FileProvider := r.provider }
      if r.err = some .EOF then
        .ok (s, st)
      else
        match r.err with
        | some err => .ok (s, { st with warnings := st.warnings ++ [err] })
        | none =>
          let st := { st with done := false, pulled := st.pulled + 1 }
          match i.sourceDatabaseName s with
          | .error err => .ok (s, { st with warnings := st.warnings ++ [err] })
          | .ok dbName =>
            .ok (s, { st with jobChan := st.jobChan ++ [
              { Source := k
                File := r.file
                IgnoreErrors := i.IgnoreErrors
                InsertionBatchSize := i.sourceBatchSize s
                Collection := { database := dbName, name := s.Collection } }] })

/-- One pass of the inner loop over the sources from position `k` on. -/
def produceRound {Entry Dumped : Type} (i : Import Entry Dumped) :
    Nat → List (Datasource Entry Dumped) → RoundState →
    Except Panic (List (Datasource Entry Dumped) × RoundState)
  | _, [], st => .ok ([], st)
  | k, s :: rest, st =>
    match produceStep i k s st with
    | .error p => .error p
    | .ok (s, st) =>
      match produceRound i (k + 1) rest st with
      | .error p => .error p
      | .ok (rest, st) => .ok (s :: rest, st)

/-- What the producer goroutine leaves behind when it ends: the sources with their
providers, the jobs sent in order, whether `jobChan` was closed, the warnings logged, the
number of rounds run and, round by round, the number of files `NextFile` handed out. -/
structure Produced (Entry Dumped : Type) where
  Sources : List (Datasource Entry Dumped)
  jobChan : List ImportJob
  closed : Bool
  warnings : List GoError
  rounds : Nat
  pulls : List Nat

/-- The goroutine of `produceJobs` (workers.go 30-69), receivers always ready. Each round
costs one unit of `fuel`; `none` means the fuel ran out before the loop ended. -/
def producerLoop {Entry Dumped : Type} (i : Import Entry Dumped) :
    Nat → Produced Entry Dumped → Option (Except Panic (Produced Entry Dumped))
  | 0, _ => none
  | fuel + 1, p =>
    match produceRound i 0 p.Sources
        { done := true, produced := 0, jobChan := p.jobChan, warnings := p.warnings,
          pulled := 0 } with
    | .error msg => some (.error msg)
    | .ok (sources, st) =>
      let p := { p with Sources := sources, jobChan := st.jobChan, warnings := st.warnings,
                        rounds := p.rounds + 1, pulls := p.pulls ++ [st.pulled] }
      if st.done then
        some (.ok { p with closed := true })
      else
        producerLoop i fuel p

/-- The first loop of `produceJobs` (workers.go 24-29): `Prepare` on each source in turn,
stopping at the first error. -/
def prepareSources {Entry Dumped : Type} (glob : String → Except GoError (List String)) :
    List (Datasource Entry Dumped) → Except GoError (List (Datasource Entry Dumped))
  | [] => .ok []
  | s :: rest =>
    match s.FileProvider.Prepare glob with
    | (some err, _) => .error err
    | (none, provider) =>
      match prepareSources glob rest with
      | .error err => .error err
      | .ok rest => .ok ({ s with FileProvider := provider } :: rest)

/-- `Import.produceJobs` (workers.go 23-71): the error it returns, or what its goroutine
does within `fuel` rounds. -/
def produceJobs {Entry Dumped : Type} (glob : String → Except GoError (List String))
    (fuel : Nat) (i : Import Entry Dumped) :
    Except GoError (Option (Except Panic (Produced Entry Dumped))) :=
  match prepareSources glob i.Sources with
  | .error err => .error err
  | .ok sources =>
    .ok (producerLoop i fuel
      { Sources := sources, jobChan := [], closed := false, warnings := [], rounds := 0,
        pulls := [] })

/-! ## Measures on a run, and concrete inputs -/

/-- The total size of the batches handed to `insert` for which `insert` returned no error;
`k` is the number of `insert` calls made before the first batch of the list. -/
def acceptedSize {File Dumped : Type} (env : Env File Dumped) (collection : Collection) :
    Nat → List (List (Option Dumped)) → Nat
  | _, [] => 0
  | k, b :: rest =>
    (match env.insert collection k b with
      | none => b.length
      | some _ => 0) + acceptedSize env collection (k + 1) rest

/-- The accounting of a run: `Succeeded` is the total size of the batches handed to
`insert` so far, and every error an `insert` call returned is in the error list. -/
def Accounted {File Entry Dumped : Type} (env : Env File Dumped) (collection : Collection)
    (st : ProcState Entry Dumped) : Prop :=
  st.result.Succeeded = (st.inserts.map List.length).sum ∧
  ∀ k b err, st.inserts[k]? = some b → env.insert collection k b = some err →
    err ∈ st.result.errors

/-- The outcome of the two hooks on one entry: the value `PreDump` returns when both
succeed. -/
def transformed {Entry Dumped : Type} (s : Datasource Entry Dumped) (entry : Entry) :
    Option Dumped :=
  match s.PostLoad entry with
  | .error _ => none
  | .ok loaded =>
    match s.PreDump loaded with
    | .error _ => none
    | .ok dumped => some dumped

/-- The entries the loop hands to the hooks, read off the loader: every entry loaded
without error before the first `io.EOF` and, when the source is not error-tolerant, also
the entry that came with a decode error. -/
def handedToHooks {Entry : Type} (ignoreErrors : Bool) : Loader Entry → List Entry
  | [] => []
  | r :: rest =>
    match r.err with
    | some .EOF => []
    | some _ => if ignoreErrors then handedToHooks ignoreErrors rest
                else r.entry :: handedToHooks ignoreErrors rest
    | none => r.entry :: handedToHooks ignoreErrors rest

/-- A run with the error list of its result blanked: everything `processFile` did and
counted, apart from which errors it recorded. -/
def ProcState.eraseErrors {Entry Dumped : Type} (st : ProcState Entry Dumped) :
    ProcState Entry Dumped :=
  { st with result := { st.result with errors := [] } }

/-- A source over entries that are numbers: `PostLoad` keeps the entry, `PreDump` adds 100. -/
def sampleSource (ignoreErrors : Bool) : Datasource Nat Nat :=
  { FileProvider := Glob.new "data/*.xml", Collection := "books", IgnoreErrors := ignoreErrors,
    PostLoad := fun e => .ok e, PreDump := fun e => .ok (e + 100) }

/-- A source whose `PostLoad` hook rejects every entry. -/
def rejectingSource : Datasource Nat Nat :=
  { sampleSource true with PostLoad := fun _ => .error (.errorf "rejected") }

/-- A slice length limit for the sample runs: `2^44` slots of 16 bytes make up the `2^48`
bytes a 64-bit Go runtime can address. -/
def sampleMaxSliceLen : Nat := 17592186044416

/-- Every file opens and every `insert` succeeds. -/
def sampleEnv : Env Unit Nat :=
  { openFile := fun _ => .ok (), insert := fun _ _ _ => none,
    maxSliceLen := sampleMaxSliceLen }

/-- Every file opens and every `insert` fails. -/
def failingInsertEnv : Env Unit Nat :=
  { openFile := fun _ => .ok (), insert := fun _ _ _ => some (.errorf "write failed"),
    maxSliceLen := sampleMaxSliceLen }

/-- No file opens. -/
def closedEnv : Env Unit Nat :=
  { openFile := fun _ => .error (.errorf "no such file"), insert := fun _ _ _ => none,
    maxSliceLen := sampleMaxSliceLen }

/-- The collection handle of the sample runs. -/
def sampleCollection : Collection := { database := "db", name := "books" }

/-- A loader that returns the given entries, each without error, and then `io.EOF`. -/
def recordsLoader {Entry : Type} (recs : List Entry) : Loader Entry :=
  recs.map fun e => { entry := e, err := none }

/-- A file system on which every pattern matches two files. -/
def twoFilesGlob : String → Except GoError (List String) :=
  fun pattern => .ok [pattern ++ "/1.xml", pattern ++ "/2.xml"]

/-- Two sources, patterns `a` and `b`, every database name resolving to `db`. -/
def twoSourcesImport (maxParallelism : Int) : Import Nat Nat :=
  { Sources := [{ sampleSource true with FileProvider := Glob.new "a" },
                { sampleSource true with FileProvider := Glob.new "b" }]
    MaxParallelism := maxParallelism
    IgnoreErrors := false
    sourceDatabaseName := fun _ => .ok "db"
    sourceBatchSize := fun _ => 1 }

/-- Four sources, patterns `a` to `d`, every database name resolving to `db`. -/
def fourSourcesImport (maxParallelism : Int) : Import Nat Nat :=
  { Sources := [{ sampleSource true with FileProvider := Glob.new "a" },
                { sampleSource true with FileProvider := Glob.new "b" },
                { sampleSource true with FileProvider := Glob.new "c" },
                { sampleSource true with FileProvider := Glob.new "d" }]
    MaxParallelism := maxParallelism
    IgnoreErrors := false
    sourceDatabaseName := fun _ => .ok "db"
    sourceBatchSize := fun _ => 1 }

/-- The decode errors a loader returns before its first `io.EOF`, in order. -/
def decodeErrors {Entry : Type} : Loader Entry → List GoError
  | [] => []
  | r :: rest =>
    match r.err with
    | some .EOF => []
    | some err => err :: decodeErrors rest
    | none => decodeErrors rest

/-- The records a loader returns without error before its first `io.EOF`, in order. -/
def loadedRecords {Entry : Type} : Loader Entry → List Entry
  | [] => []
  | r :: rest =>
    match r.err with
    | some .EOF => []
    | some _ => loadedRecords rest
    | none => r.entry :: loadedRecords rest

/-- What one job comes to in `worker` (workers.go 90-91): `processFile` on the source the
job points to, with the loader factory of that source. `ldr k` stands for `Create` of the
`Loader` of the source at position `k`. A job whose `Source` points to no source is a nil
pointer dereference. -/
def runJob {File Entry Dumped : Type} (sources : List (Datasource Entry Dumped))
    (env : Env File Dumped) (ldr : Nat → File → Except GoError (Loader Entry))
    (j : ImportJob) : Except Panic PartialResult :=
  match sources[j.Source]? with
  | none => .error "nil pointer dereference"
  | some s =>
    match processFile s env j.File (ldr j.Source) j.Collection j.InsertionBatchSize with
    | .error p => .error p
    | .ok st => .ok st.result

/-- What a worker goroutine leaves behind: the results it sent on `resultsChan`, in order,
and the panic that ended it, if it did not leave its loop at the close of `jobChan`. -/
structure Worked where
  resultsChan : List PartialResult
  panic : Option Panic
  deriving DecidableEq, Repr

/-- The loop of `worker` (workers.go 86-96) over the jobs it receives from `jobChan` until
the channel is closed. There is no `recover`: a panic in `processFile` ends the goroutine
before `resultsChan <- result`. -/
def worker {File Entry Dumped : Type} (sources : List (Datasource Entry Dumped))
    (env : Env File Dumped) (ldr : Nat → File → Except GoError (Loader Entry)) :
    List ImportJob → List PartialResult → Worked
  | [], sent => { resultsChan := sent, panic := none }
  | j :: rest, sent =>
    match runJob sources env ldr j with
    | .error p => { resultsChan := sent, panic := some p }
    | .ok result => worker sources env ldr rest (sent ++ [result])

/-- A job for the source at position 0 of the sample imports. -/
def sampleJob (file : String) (batchSize : Int) : ImportJob :=
  { Source := 0, File := file, InsertionBatchSize := batchSize, IgnoreErrors := false,
    Collection := sampleCollection }

/-- The number of files a provider will still hand out: `matchCount - (index + 1)`, or 0. -/
def Glob.remaining (g : Glob) : Nat := g.matchCount - (g.index + 1)

/-- The largest match count over the sources (0 when there is no source). -/
def maxMatchCount {Entry Dumped : Type} (sources : List (Datasource Entry Dumped)) : Nat :=
  (sources.map fun s => s.FileProvider.matchCount).foldr max 0

/-- The providers of the sources are as `Prepare` leaves them: `matchCount` is the length
of `matches`. -/
def Prepared {Entry Dumped : Type} (sources : List (Datasource Entry Dumped)) : Prop :=
  ∀ s ∈ sources, s.FileProvider.matchCount = s.FileProvider.«matches».length

/-! ## loaders: the streaming loader

The loader itself is not among the sources at hand; only its test `loaders/xml_test.go` is.
The definitions of this section are modelled from the specification and from that test. -/

/-- Modelled from the spec: the tree-shaped document a loader decodes (the loader of the
`loaders` package is missing; the spec speaks of nodes at a nesting level below the root).
A node has a name, attributes, text content and child nodes in document order. -/
inductive Node where
  | mk (name : String) (attrs : List (String × String)) (text : String)
      (children : List Node)

/-- The name of a node. -/
def Node.name : Node → String
  | .mk name _ _ _ => name

/-- The child nodes of a node, in document order. -/
def Node.children : Node → List Node
  | .mk _ _ _ children => children

/-- Modelled from the spec: a Record, "a nested key/value structure" (the loader that
builds it is missing), as its list of top-level keys with the subtree each one holds. -/
abbrev Record := List (String × Node)

/-- Modelled from the spec: the record made of one node (the decoder is missing): a map
with a single top-level key, the name of the node, holding the node. -/
def Node.record (n : Node) : Record := [(n.name, n)]

/-- Modelled from the spec: the nodes at nesting level `d` below the root, in document
order (the loader that walks the document is missing). Level 0 is the root itself. -/
def nodesAt : Nat → Node → List Node
  | 0, n => [n]
  | d + 1, n => n.children.flatMap (nodesAt d)

/-- Modelled from the spec: "the count of nodes at nesting level d" (counted without
listing the nodes): 1 at level 0, else the sum of the counts one level up in each child. -/
def countAt : Nat → Node → Nat
  | 0, _ => 1
  | d + 1, n => (n.children.map (countAt d)).sum

/-- Modelled from the spec: `Config{Depth: optional int}` of the loader plugin contract
(the declaration is missing). -/
structure LoaderConfig where
  Depth : Option Nat
  deriving DecidableEq, Repr

/-- Modelled from the spec: the depth a loader works at (the loader is missing). The spec
gives depth 0 the meaning "the entire input as one record" and depth `d > 0` the meaning
"one record per node at nesting level `d`"; for a depth that is not set the test
`TestBasicXMLLoading` expects the two `book` records, which is level 1. -/
def LoaderConfig.effectiveDepth (config : LoaderConfig) : Nat :=
  config.Depth.getD 1

/-- Modelled from the spec: the Streaming Loader (the loader of the `loaders` package is
missing), by the records it has not returned yet. -/
structure StreamingLoader where
  pending : List Record

/-- Modelled from the spec: `Create` and `Start` of the Streaming Loader on a well-formed
document (the loader is missing): one record per node at the configured nesting level, in
document order. -/
def StreamingLoader.Start (config : LoaderConfig) (doc : Node) : StreamingLoader :=
  { pending := (nodesAt config.effectiveDepth doc).map Node.record }

/-- Modelled from the spec: `Load` of the Streaming Loader (the loader is missing): the
next record, or `io.EOF` once the records are consumed, and again on every later call. -/
def StreamingLoader.Load (loader : StreamingLoader) : LoadResult Record × StreamingLoader :=
  match loader.pending with
  | [] => ({ entry := [], err := some .EOF }, loader)
  | r :: rest => ({ entry := r, err := none }, { pending := rest })

/-- The results of `n` successive `Load` calls on a Streaming Loader, in call order. -/
def StreamingLoader.loads : Nat → StreamingLoader → List (LoadResult Record)
  | 0, _ => []
  | n + 1, loader => loader.Load.1 :: StreamingLoader.loads n loader.Load.2

/-- A node that holds text only. -/
def textNode (name text : String) : Node := .mk name [] text []

/-- The first `book` element of `basicXML` in loaders/xml_test.go. -/
def book101 : Node :=
  .mk "book" [("id", "bk101")] ""
    [textNode "author" "Gambardella, Matthew",
     textNode "title" "XML Developer\x27s Guide",
     textNode "genre" "Computer",
     textNode "price" "44.95",
     textNode "publish_date" "2000-10-01",
     textNode "description" "An in-depth look at creating applications with XML."]

/-- The second `book` element of `basicXML` in loaders/xml_test.go. -/
def book102 : Node :=
  .mk "book" [("id", "bk102")] ""
    [textNode "author" "Ralls, Kim",
     textNode "title" "Midnight Rain",
     textNode "genre" "Fantasy",
     textNode "price" "5.95",
     textNode "publish_date" "2000-12-16",
     textNode "description" "A former architect battles corporate zombies, \n\t\t  an evil sorceress, and her own childhood to become queen \n\t\t  of the world."]

/-- The document `basicXML` of loaders/xml_test.go: a catalog of two books. -/
def basicXML : Node := .mk "catalog" [] "" [book101, book102]

/-- The list `zs` is the lists `xs` and `ys` merged: every element of `zs` comes from
exactly one of them, and each of the two keeps its order and its repetitions. -/
inductive Interleaved {α : Type} : List α → List α → List α → Prop where
  | nil : Interleaved [] [] []
  | left (a : α) {xs ys zs : List α} :
      Interleaved xs ys zs → Interleaved (a :: xs) ys (a :: zs)
  | right (a : α) {xs ys zs : List α} :
      Interleaved xs ys zs → Interleaved xs (a :: ys) (a :: zs)

/-- The errors the `insert` calls of a run returned, in call order, one per failed call;
`k` is the number of `insert` calls made before the first batch of the list. -/
def insertErrors {File Dumped : Type} (env : Env File Dumped) (collection : Collection) :
    Nat → List (List (Option Dumped)) → List GoError
  | _, [] => []
  | k, b :: rest =>
    (match env.insert collection k b with
      | some err => [err]
      | none => []) ++ insertErrors env collection (k + 1) rest

/-- A source whose `PreDump` hook rejects every odd entry. -/
def pickySource : Datasource Nat Nat :=
  { sampleSource true with
    PreDump := fun e => if e % 2 = 0 then .ok (e + 100) else .error (.errorf "odd") }

/-! ### Theorems about the file provider -/

/-- C1 (the code at the failing input): a provider whose `Prepare` captured a single match,
whatever the pattern and the path, signals exhaustion on the very first `NextFile` call.
With the match `data/a.xml` two calls both signal exhaustion and the path is never returned;
with the matches `a`, `b`, `c` three calls return `b`, `c` and exhaustion: the first match
of a prepared provider is skipped. -/
theorem NextFile_single_match_skipped :
    (∀ pattern m : String, (Glob.prepared pattern [m]).NextFile =
      .ok { file := "", err := some (.errorf "No more files"),
            provider := Glob.prepared pattern [m] }) ∧
    (Glob.prepared "data/*.xml" ["data/a.xml"]).«matches» = ["data/a.xml"] ∧
    Glob.nextFiles 2 (Glob.prepared "data/*.xml" ["data/a.xml"]) =
      .ok ([("", some (.errorf "No more files")), ("", some (.errorf "No more files"))],
           Glob.prepared "data/*.xml" ["data/a.xml"]) ∧
    Glob.nextFiles 3 (Glob.prepared "data/*.xml" ["a", "b", "c"]) =
      .ok ([("b", none), ("c", none), ("", some (.errorf "No more files"))],
           { Glob.prepared "data/*.xml" ["a", "b", "c"] with index := 2 }) := by
  exact ⟨fun _ _ => rfl, rfl, rfl, rfl⟩

/-- C10: whenever `NextFile` signals exhaustion (returns an error), that call returns the
empty path and leaves the provider unchanged, so any number of further calls signal
exhaustion again, with the same error, and still leave the provider unchanged. -/
theorem NextFile_exhaustion_idempotent (g : Glob) (r : NextFileResult)
    (h : g.NextFile = .ok r) (hex : r.err ≠ none) :
    r.file = "" ∧ r.provider = g ∧
    ∀ n, Glob.nextFiles n g = .ok (List.replicate n ("", r.err), g) := by
  unfold Glob.NextFile at h
  by_cases hc : g.matchCount ≤ g.index + 1
  · rw [if_pos hc] at h
    injection h with h
    subst h
    refine ⟨rfl, rfl, ?_⟩
    intro n
    induction n with
    | zero => rfl
    | succ n ih =>
      simp only [Glob.nextFiles, Glob.NextFile, if_pos hc, ih, List.replicate_succ]
  · rw [if_neg hc] at h
    simp only at h
    split at h
    · injection h with h
      subst h
      exact absurd rfl hex
    · exact absurd h (by simp)

/-- C10 at a concrete provider: one match captured, nothing left to hand out. -/
theorem NextFile_exhaustion_idempotent_witness :
    (Glob.prepared "data/*.xml" ["data/a.xml"]).NextFile =
      .ok { file := "", err := some (.errorf "No more files"),
            provider := Glob.prepared "data/*.xml" ["data/a.xml"] } ∧
    ∀ n, Glob.nextFiles n (Glob.prepared "data/*.xml" ["data/a.xml"]) =
      .ok (List.replicate n ("", some (.errorf "No more files")),
           Glob.prepared "data/*.xml" ["data/a.xml"]) :=
  ⟨rfl, (NextFile_exhaustion_idempotent (Glob.prepared "data/*.xml" ["data/a.xml"])
    { file := "", err := some (.errorf "No more files"),
      provider := Glob.prepared "data/*.xml" ["data/a.xml"] } rfl (by simp)).2.2⟩

/-! ### Theorems about the producer -/

/-- C2 (the code at the failing input): with two sources whose prepared match lists hold two
files each and `MaxParallelism = 1`, the producer ends after two rounds, closes the channel
and has sent two jobs, not four: the first match of each source is never sent. -/
theorem produceJobs_two_by_two_sends_two :
    ∃ p, produceJobs twoFilesGlob 2 (twoSourcesImport 1) = .ok (some (.ok p)) ∧
      p.Sources.map (fun s => s.FileProvider.«matches») =
        [["a/1.xml", "a/2.xml"], ["b/1.xml", "b/2.xml"]] ∧
      p.jobChan.map (fun j => (j.Source, j.File)) = [(0, "a/2.xml"), (1, "b/2.xml")] ∧
      p.closed = true ∧ p.rounds = 2 :=
  ⟨_, rfl, rfl, rfl, rfl, rfl⟩

/-! ### Lemmas about the batching loop -/

theorem flush_accounted {File Entry Dumped : Type} (env : Env File Dumped)
    (collection : Collection) (st st' : ProcState Entry Dumped)
    (h : flush env collection st = .ok st') (hacc : Accounted env collection st) :
    Accounted env collection st' ∧ st'.batch = st.batch ∧ st'.batched = st.batched := by
  unfold flush at h
  split at h
  · rename_i hle
    injection h with h
    subst h
    refine ⟨⟨?_, ?_⟩, rfl, rfl⟩
    · simp [hacc.1, List.length_take, Nat.min_eq_left hle]
    · intro k b err hk hins
      simp only at hk ⊢
      rcases Nat.lt_or_ge k st.inserts.length with hlt | hge
      · rw [List.getElem?_append_left hlt] at hk
        have := hacc.2 k b err hk hins
        split <;> simp [this]
      · rw [List.getElem?_append_right hge] at hk
        have hk0 : k - st.inserts.length = 0 := by
          by_contra hne
          obtain ⟨m, hm⟩ := Nat.exists_eq_succ_of_ne_zero hne
          rw [hm] at hk
          simp at hk
        have hkeq : k = st.inserts.length := by omega
        rw [hk0] at hk
        simp at hk
        subst hk
        subst hkeq
        rw [hins]
        simp
  · exact absurd h (by simp)

theorem Accounted.of_fields {File Entry Dumped : Type} {env : Env File Dumped}
    {collection : Collection} {st st' : ProcState Entry Dumped}
    (hacc : Accounted env collection st) (hs : st'.result.Succeeded = st.result.Succeeded)
    (hi : st'.inserts = st.inserts) (he : ∀ e ∈ st.result.errors, e ∈ st'.result.errors) :
    Accounted env collection st' := by
  refine ⟨by rw [hs, hi]; exact hacc.1, ?_⟩
  intro k b err hk hins
  rw [hi] at hk
  exact he _ (hacc.2 k b err hk hins)

theorem transformAndBatch_accounted {File Entry Dumped : Type} (s : Datasource Entry Dumped)
    (env : Env File Dumped) (collection : Collection) (batchSize : Int) (entry : Entry)
    (st st' : ProcState Entry Dumped)
    (h : transformAndBatch s env collection batchSize entry st = .ok st')
    (hacc : Accounted env collection st) : Accounted env collection st' := by
  unfold transformAndBatch at h
  simp only at h
  split at h
  · injection h with h
    subst h
    exact hacc.of_fields rfl rfl (fun e he => he)
  · split at h
    · injection h with h
      subst h
      exact hacc.of_fields rfl rfl (fun e he => he)
    · split at h
      · split at h
        · split at h
          · exact absurd h (by simp)
          · rename_i stf hf
            injection h with h
            subst h
            have h1 := (flush_accounted env collection _ stf hf
              (hacc.of_fields rfl rfl (fun e he => he))).1
            exact h1.of_fields rfl rfl (fun e he => he)
        · injection h with h
          subst h
          exact hacc.of_fields rfl rfl (fun e he => he)
      · exact absurd h (by simp)

theorem processLoop_accounted {File Entry Dumped : Type} (s : Datasource Entry Dumped)
    (env : Env File Dumped) (collection : Collection) (batchSize : Int)
    (loader : Loader Entry) :
    ∀ (st st' : ProcState Entry Dumped),
      processLoop s env collection batchSize loader st = .ok st' →
      Accounted env collection st → Accounted env collection st' := by
  induction loader with
  | nil =>
    intro st st' h hacc
    unfold processLoop at h
    exact (flush_accounted env collection _ st' h (hacc.of_fields rfl rfl (fun e he => he))).1
  | cons r rest ih =>
    intro st st' h hacc
    unfold processLoop at h
    simp only at h
    split at h
    · exact (flush_accounted env collection _ st' h (hacc.of_fields rfl rfl (fun e he => he))).1
    · split at h
      · exact ih _ _ h (hacc.of_fields rfl rfl (fun e he => by simp [he]))
      · split at h
        · exact absurd h (by simp)
        · rename_i st1 h1
          exact ih _ _ h (transformAndBatch_accounted s env collection batchSize _ _ st1 h1
            (hacc.of_fields rfl rfl (fun e he => by simp [he])))
    · split at h
      · exact absurd h (by simp)
      · rename_i st1 h1
        exact ih _ _ h (transformAndBatch_accounted s env collection batchSize _ _ st1 h1
          (hacc.of_fields rfl rfl (fun e he => he)))

theorem flush_eraseErrors {File Entry Dumped : Type} (env₁ env₂ : Env File Dumped)
    (collection : Collection) (st₁ st₂ : ProcState Entry Dumped)
    (h : st₁.eraseErrors = st₂.eraseErrors) :
    (flush env₁ collection st₁).map ProcState.eraseErrors =
      (flush env₂ collection st₂).map ProcState.eraseErrors := by
  obtain ⟨⟨f₁, c₁, su₁, fa₁, er₁⟩, b₁, n₁, l₁, o₁, hk₁, i₁⟩ := st₁
  obtain ⟨⟨f₂, c₂, su₂, fa₂, er₂⟩, b₂, n₂, l₂, o₂, hk₂, i₂⟩ := st₂
  simp only [ProcState.eraseErrors, ProcState.mk.injEq, PartialResult.mk.injEq] at h
  obtain ⟨⟨rfl, rfl, rfl, rfl, -⟩, rfl, rfl, rfl, rfl, rfl, rfl⟩ := h
  unfold flush
  by_cases hle : n₁ ≤ b₁.length
  · simp [hle, Except.map, ProcState.eraseErrors]
  · simp [hle, Except.map]

theorem transformAndBatch_eraseErrors {File Entry Dumped : Type} (s : Datasource Entry Dumped)
    (env₁ env₂ : Env File Dumped) (collection : Collection) (batchSize : Int) (entry : Entry)
    (st₁ st₂ : ProcState Entry Dumped) (h : st₁.eraseErrors = st₂.eraseErrors) :
    (transformAndBatch s env₁ collection batchSize entry st₁).map ProcState.eraseErrors =
      (transformAndBatch s env₂ collection batchSize entry st₂).map ProcState.eraseErrors := by
  obtain ⟨⟨f₁, c₁, su₁, fa₁, er₁⟩, b₁, n₁, l₁, o₁, hk₁, i₁⟩ := st₁
  obtain ⟨⟨f₂, c₂, su₂, fa₂, er₂⟩, b₂, n₂, l₂, o₂, hk₂, i₂⟩ := st₂
  simp only [ProcState.eraseErrors, ProcState.mk.injEq, PartialResult.mk.injEq] at h
  obtain ⟨⟨rfl, rfl, rfl, rfl, -⟩, rfl, rfl, rfl, rfl, rfl, rfl⟩ := h
  unfold transformAndBatch
  simp only
  cases hP : s.PostLoad entry with
  | error e => simp [Except.map, ProcState.eraseErrors]
  | ok loaded =>
    simp only
    cases hD : s.PreDump loaded with
    | error e => simp [Except.map, ProcState.eraseErrors]
    | ok dumped =>
      simp only
      by_cases hlt : n₁ < b₁.length
      · by_cases hfull : ((n₁ : Int) + 1) = batchSize
        · have hle : n₁ + 1 ≤ b₁.length := hlt
          simp [hlt, hfull, flush, hle, Except.map, ProcState.eraseErrors]
        · simp [hlt, hfull, Except.map, ProcState.eraseErrors]
      · simp [hlt, Except.map]

theorem processLoop_eraseErrors {File Entry Dumped : Type} (s : Datasource Entry Dumped)
    (env₁ env₂ : Env File Dumped) (collection : Collection) (batchSize : Int)
    (loader : Loader Entry) :
    ∀ (st₁ st₂ : ProcState Entry Dumped), st₁.eraseErrors = st₂.eraseErrors →
      (processLoop s env₁ collection batchSize loader st₁).map ProcState.eraseErrors =
        (processLoop s env₂ collection batchSize loader st₂).map ProcState.eraseErrors := by
  induction loader with
  | nil =>
    intro st₁ st₂ h
    unfold processLoop
    apply flush_eraseErrors
    simp only [ProcState.eraseErrors, ProcState.mk.injEq, PartialResult.mk.injEq] at h ⊢
    simp [h]
  | cons r rest ih =>
    intro st₁ st₂ h
    have hload : ({ st₁ with loads := st₁.loads + 1 } : ProcState Entry Dumped).eraseErrors =
        ({ st₂ with loads := st₂.loads + 1 } : ProcState Entry Dumped).eraseErrors := by
      simp only [ProcState.eraseErrors, ProcState.mk.injEq, PartialResult.mk.injEq] at h ⊢
      simp [h]
    unfold processLoop
    simp only
    split
    · exact flush_eraseErrors env₁ env₂ collection _ _ hload
    · rename_i err _ _
      have hfail :
          ProcState.eraseErrors
            { st₁ with
              loads := st₁.loads + 1
              observed := st₁.observed + 1
              result := { st₁.result with Failed := st₁.result.Failed + 1,
                                          errors := st₁.result.errors ++ [err] } } =
          ProcState.eraseErrors
            { st₂ with
              loads := st₂.loads + 1
              observed := st₂.observed + 1
              result := { st₂.result with Failed := st₂.result.Failed + 1,
                                          errors := st₂.result.errors ++ [err] } } := by
        simp only [ProcState.eraseErrors, ProcState.mk.injEq, PartialResult.mk.injEq] at h ⊢
        simp [h]
      split
      · exact ih _ _ hfail
      · have ht := transformAndBatch_eraseErrors s env₁ env₂ collection batchSize r.entry _ _ hfail
        revert ht
        cases transformAndBatch s env₁ collection batchSize r.entry _ <;>
          cases transformAndBatch s env₂ collection batchSize r.entry _ <;>
          simp only [Except.map] <;> intro ht
        · exact ht
        · exact absurd ht (by simp)
        · exact absurd ht (by simp)
        · exact ih _ _ (by injection ht)
    · have hobs : ({ st₁ with loads := st₁.loads + 1, observed := st₁.observed + 1 } :
            ProcState Entry Dumped).eraseErrors =
          ({ st₂ with loads := st₂.loads + 1, observed := st₂.observed + 1 } :
            ProcState Entry Dumped).eraseErrors := by
        simp only [ProcState.eraseErrors, ProcState.mk.injEq, PartialResult.mk.injEq] at h ⊢
        simp [h]
      have ht := transformAndBatch_eraseErrors s env₁ env₂ collection batchSize r.entry _ _ hobs
      revert ht
      cases transformAndBatch s env₁ collection batchSize r.entry _ <;>
        cases transformAndBatch s env₂ collection batchSize r.entry _ <;>
        simp only [Except.map] <;> intro ht
      · exact ht
      · exact absurd ht (by simp)
      · exact absurd ht (by simp)
      · exact ih _ _ (by injection ht)

theorem flush_ready {File Entry Dumped : Type} (env : Env File Dumped)
    (collection : Collection) (st : ProcState Entry Dumped)
    (hle : st.batched ≤ st.batch.length) :
    ∃ st', flush env collection st = .ok st' ∧ st'.batch = st.batch ∧
      st'.batched = st.batched ∧ st'.inserts = st.inserts ++ [st.batch.take st.batched] ∧
      st'.hooked = st.hooked ∧ st'.loads = st.loads ∧ st'.observed = st.observed := by
  unfold flush
  rw [if_pos hle]
  exact ⟨_, rfl, rfl, rfl, rfl, rfl, rfl, rfl⟩

theorem transformAndBatch_ready {File Entry Dumped : Type} (s : Datasource Entry Dumped)
    (env : Env File Dumped) (collection : Collection) (batchSize : Int) (entry : Entry)
    (st : ProcState Entry Dumped) (hlen : (st.batch.length : Int) = batchSize)
    (hlt : st.batched < st.batch.length) :
    ∃ st', transformAndBatch s env collection batchSize entry st = .ok st' ∧
      st'.batch.length = st.batch.length ∧ st'.batched < st'.batch.length := by
  unfold transformAndBatch
  simp only
  cases hP : s.PostLoad entry with
  | error e => exact ⟨_, rfl, rfl, hlt⟩
  | ok loaded =>
    simp only
    cases hD : s.PreDump loaded with
    | error e => exact ⟨_, rfl, rfl, hlt⟩
    | ok dumped =>
      simp only [if_pos hlt]
      by_cases hfull : ((st.batched : Int) + 1) = batchSize
      · have hle : st.batched + 1 ≤ (st.batch.set st.batched (some dumped)).length := by
          simpa using hlt
        simp only [Nat.cast_add, Nat.cast_one, hfull, if_true, flush, hle]
        refine ⟨_, rfl, by simp, ?_⟩
        simp only [List.length_set]
        omega
      · simp only [Nat.cast_add, Nat.cast_one, hfull, if_false]
        refine ⟨_, rfl, by simp, ?_⟩
        simp only [List.length_set]
        omega

theorem processLoop_ready {File Entry Dumped : Type} (s : Datasource Entry Dumped)
    (env : Env File Dumped) (collection : Collection) (batchSize : Int)
    (loader : Loader Entry) :
    ∀ (st : ProcState Entry Dumped), (st.batch.length : Int) = batchSize →
      st.batched < st.batch.length →
      ∃ st', processLoop s env collection batchSize loader st = .ok st' := by
  induction loader with
  | nil =>
    intro st _ hlt
    unfold processLoop
    obtain ⟨st', h, -⟩ := flush_ready env collection { st with loads := st.loads + 1 }
      (Nat.le_of_lt hlt)
    exact ⟨st', h⟩
  | cons r rest ih =>
    intro st hlen hlt
    unfold processLoop
    simp only
    split
    · obtain ⟨st', h, -⟩ := flush_ready env collection { st with loads := st.loads + 1 }
        (Nat.le_of_lt hlt)
      exact ⟨st', h⟩
    · split
      · exact ih _ hlen hlt
      · obtain ⟨st1, h1, hl1, hb1⟩ := transformAndBatch_ready s env collection batchSize r.entry
          { st with
            loads := st.loads + 1
            observed := st.observed + 1
            result := { st.result with Failed := st.result.Failed + 1,
                                       errors := st.result.errors ++ [_] } } hlen hlt
        rw [h1]
        exact ih st1 (by rw [hl1]; exact hlen) hb1
    · obtain ⟨st1, h1, hl1, hb1⟩ := transformAndBatch_ready s env collection batchSize r.entry
        { st with loads := st.loads + 1, observed := st.observed + 1 } hlen hlt
      rw [h1]
      exact ih st1 (by rw [hl1]; exact hlen) hb1

theorem transformAndBatch_pass {File Entry Dumped : Type} (s : Datasource Entry Dumped)
    (env : Env File Dumped) (collection : Collection) (batchSize : Int) (entry loaded : Entry)
    (dumped : Dumped) (st : ProcState Entry Dumped)
    (hP : s.PostLoad entry = .ok loaded) (hD : s.PreDump loaded = .ok dumped)
    (hlen : (st.batch.length : Int) = batchSize) (hlt : st.batched < st.batch.length) :
    ∃ st', transformAndBatch s env collection batchSize entry st = .ok st' ∧
      st'.batch = st.batch.set st.batched (some dumped) ∧
      st'.batched = (if st.batched + 1 = st.batch.length then 0 else st.batched + 1) ∧
      st'.inserts = (if st.batched + 1 = st.batch.length
        then st.inserts ++ [(st.batch.set st.batched (some dumped)).take (st.batched + 1)]
        else st.inserts) := by
  unfold transformAndBatch
  simp only [hP, hD, if_pos hlt]
  by_cases hfull : st.batched + 1 = st.batch.length
  · have hfull' : ((st.batched : Int) + 1) = batchSize := by
      rw [← hlen]; exact_mod_cast hfull
    have hle : st.batched + 1 ≤ (st.batch.set st.batched (some dumped)).length := by
      simpa using hlt
    simp only [Nat.cast_add, Nat.cast_one, hfull', if_true, flush, hle, if_pos hfull]
    exact ⟨_, rfl, rfl, rfl, rfl⟩
  · have hfull' : ¬ ((st.batched : Int) + 1) = batchSize := by
      rw [← hlen]; exact_mod_cast hfull
    simp only [Nat.cast_add, Nat.cast_one, hfull', if_false, if_neg hfull]
    exact ⟨_, rfl, rfl, rfl, rfl⟩

theorem processLoop_batch_sizes {File Entry Dumped : Type} (s : Datasource Entry Dumped)
    (env : Env File Dumped) (collection : Collection) (batchSize : Int)
    (recs : List Entry)
    (hpass : ∀ e ∈ recs, ∃ loaded dumped, s.PostLoad e = .ok loaded ∧ s.PreDump loaded = .ok dumped) :
    ∀ (st : ProcState Entry Dumped), (st.batch.length : Int) = batchSize →
      st.batched < st.batch.length →
      ∃ st', processLoop s env collection batchSize (recordsLoader recs) st = .ok st' ∧
        st'.inserts.map List.length = st.inserts.map List.length ++
          (List.replicate ((st.batched + recs.length) / st.batch.length) st.batch.length ++
            [(st.batched + recs.length) % st.batch.length]) := by
  induction recs with
  | nil =>
    intro st _ hlt
    simp only [recordsLoader, List.map_nil, processLoop]
    obtain ⟨st', h, -, -, hi, -⟩ := flush_ready env collection { st with loads := st.loads + 1 }
      (Nat.le_of_lt hlt)
    refine ⟨st', h, ?_⟩
    rw [hi]
    simp [Nat.div_eq_of_lt hlt, Nat.mod_eq_of_lt hlt, Nat.min_eq_left (Nat.le_of_lt hlt)]
  | cons e recs ih =>
    intro st hlen hlt
    obtain ⟨loaded, dumped, hP, hD⟩ := hpass e (List.mem_cons_self _ _)
    obtain ⟨st1, h1, hb1, hn1, hi1⟩ := transformAndBatch_pass s env collection batchSize e loaded
      dumped { st with loads := st.loads + 1, observed := st.observed + 1 } hP hD hlen hlt
    have hl1 : st1.batch.length = st.batch.length := by rw [hb1]; simp
    have hlt1 : st1.batched < st1.batch.length := by
      rw [hn1, hl1]; simp only; split <;> omega
    obtain ⟨st', h', hs'⟩ := ih (fun x hx => hpass x (List.mem_cons_of_mem _ hx)) st1
      (by rw [hl1]; exact hlen) hlt1
    refine ⟨st', ?_, ?_⟩
    · simp only [recordsLoader, List.map_cons, processLoop]
      simp only [recordsLoader] at h'
      rw [h1]
      exact h'
    · rw [hs', hi1, hn1, hl1]
      simp only [List.length_cons]
      by_cases hfull : st.batched + 1 = st.batch.length
      · simp only [if_pos hfull, List.map_append, List.map_cons, List.map_nil, List.length_take,
          List.length_set, List.append_assoc, List.singleton_append, zero_add]
        have hpos : 0 < st.batch.length := by omega
        have h2 : st.batched + (recs.length + 1) = recs.length + st.batch.length := by omega
        rw [h2, Nat.add_div_right _ hpos, Nat.add_mod_right, List.replicate_succ]
        simp [hfull]
      · simp only [if_neg hfull]
        have h2 : st.batched + 1 + recs.length = st.batched + (recs.length + 1) := by omega
        rw [h2]

theorem take_succ_set_eq {α : Type} (l : List α) :
    ∀ (n : Nat) (a : α), n < l.length → (l.set n a).take (n + 1) = l.take n ++ [a] := by
  induction l with
  | nil => intro n a h; exact absurd h (by simp)
  | cons x xs ih =>
    intro n a h
    cases n with
    | zero => simp
    | succ n =>
      have h' : n < xs.length := by simpa using h
      simp [ih n a h']

theorem transformAndBatch_written {File Entry Dumped : Type} (s : Datasource Entry Dumped)
    (env : Env File Dumped) (collection : Collection) (batchSize : Int) (entry : Entry)
    (st : ProcState Entry Dumped) (hlen : (st.batch.length : Int) = batchSize)
    (hlt : st.batched < st.batch.length) :
    ∃ st', transformAndBatch s env collection batchSize entry st = .ok st' ∧
      st'.batch.length = st.batch.length ∧ st'.batched < st'.batch.length ∧
      st'.hooked = st.hooked ++ [entry] ∧
      st'.inserts.flatten ++ st'.batch.take st'.batched =
        st.inserts.flatten ++ st.batch.take st.batched ++
          ((transformed s entry).map some).toList := by
  unfold transformAndBatch transformed
  simp only
  cases hP : s.PostLoad entry with
  | error e => exact ⟨_, rfl, rfl, hlt, rfl, by simp⟩
  | ok loaded =>
    simp only
    cases hD : s.PreDump loaded with
    | error e => exact ⟨_, rfl, rfl, hlt, rfl, by simp⟩
    | ok dumped =>
      simp only [if_pos hlt]
      have htake : (st.batch.set st.batched (some dumped)).take (st.batched + 1) =
          st.batch.take st.batched ++ [some dumped] :=
        take_succ_set_eq st.batch st.batched (some dumped) hlt
      by_cases hfull : ((st.batched : Int) + 1) = batchSize
      · have hle : st.batched + 1 ≤ (st.batch.set st.batched (some dumped)).length := by
          simpa using hlt
        simp only [Nat.cast_add, Nat.cast_one, hfull, if_true, flush, hle]
        refine ⟨_, rfl, by simp, ?_, rfl, ?_⟩
        · simp only [List.length_set]
          omega
        · simp [htake]
      · simp only [Nat.cast_add, Nat.cast_one, hfull, if_false]
        refine ⟨_, rfl, by simp, ?_, rfl, ?_⟩
        · simp only [List.length_set]
          omega
        · simp [htake]

theorem processLoop_written {File Entry Dumped : Type} (s : Datasource Entry Dumped)
    (env : Env File Dumped) (collection : Collection) (batchSize : Int)
    (loader : Loader Entry) :
    ∀ (st : ProcState Entry Dumped), (st.batch.length : Int) = batchSize →
      st.batched < st.batch.length →
      ∃ st', processLoop s env collection batchSize loader st = .ok st' ∧
        st'.hooked = st.hooked ++ handedToHooks s.IgnoreErrors loader ∧
        st'.inserts.flatten = st.inserts.flatten ++ st.batch.take st.batched ++
          ((handedToHooks s.IgnoreErrors loader).filterMap (transformed s)).map some := by
  induction loader with
  | nil =>
    intro st _ hlt
    unfold processLoop
    obtain ⟨st', h, -, -, hi, hh, -⟩ := flush_ready env collection
      { st with loads := st.loads + 1 } (Nat.le_of_lt hlt)
    refine ⟨st', h, by simp [hh, handedToHooks], ?_⟩
    rw [hi]
    simp [handedToHooks]
  | cons r rest ih =>
    intro st hlen hlt
    have hstep : ∀ st₀ : ProcState Entry Dumped, (st₀.batch.length : Int) = batchSize →
        st₀.batched < st₀.batch.length →
        ∃ st', (match transformAndBatch s env collection batchSize r.entry st₀ with
            | .error p => Except.error p
            | .ok st => processLoop s env collection batchSize rest st) = .ok st' ∧
          st'.hooked = st₀.hooked ++ r.entry :: handedToHooks s.IgnoreErrors rest ∧
          st'.inserts.flatten = st₀.inserts.flatten ++ st₀.batch.take st₀.batched ++
            ((r.entry :: handedToHooks s.IgnoreErrors rest).filterMap (transformed s)).map
              some := by
      intro st₀ hlen₀ hlt₀
      obtain ⟨st1, h1, hl1, hb1, hh1, hw1⟩ := transformAndBatch_written s env collection
        batchSize r.entry st₀ hlen₀ hlt₀
      obtain ⟨st', h', hh', hw'⟩ := ih st1 (by rw [hl1]; exact hlen₀) hb1
      refine ⟨st', by rw [h1]; exact h', by rw [hh', hh1]; simp, ?_⟩
      rw [hw', hw1, List.filterMap_cons]
      cases transformed s r.entry <;> simp
    unfold processLoop
    simp only
    split
    · rename_i heof
      obtain ⟨st', h, -, -, hi, hh, -⟩ := flush_ready env collection
        { st with loads := st.loads + 1 } (Nat.le_of_lt hlt)
      refine ⟨st', h, by simp [hh, handedToHooks, heof], ?_⟩
      rw [hi]
      simp [handedToHooks, heof]
    · rename_i err hne herr
      have hh : handedToHooks s.IgnoreErrors (r :: rest) =
          if s.IgnoreErrors then handedToHooks s.IgnoreErrors rest
          else r.entry :: handedToHooks s.IgnoreErrors rest := by
        cases err with
        | EOF => exact absurd rfl hne
        | errorf msg => simp [handedToHooks, herr]
      rw [hh]
      by_cases hig : s.IgnoreErrors = true
      · simp only [if_pos hig]
        exact ih _ hlen hlt
      · simp only [if_neg hig]
        exact hstep _ hlen hlt
    · rename_i hnone
      have hh : handedToHooks s.IgnoreErrors (r :: rest) =
          r.entry :: handedToHooks s.IgnoreErrors rest := by
        simp [handedToHooks, hnone]
      rw [hh]
      exact hstep _ hlen hlt

theorem processFile_written {File Entry Dumped : Type} (s : Datasource Entry Dumped)
    (env : Env File Dumped) (filename : String) (ldr : File → Except GoError (Loader Entry))
    (collection : Collection) (batchSize : Int) (file : File) (loader : Loader Entry)
    (hb : 1 ≤ batchSize) (hmax : batchSize ≤ env.maxSliceLen)
    (hopen : env.openFile filename = .ok file) (hldr : ldr file = .ok loader) :
    ∃ st, processFile s env filename ldr collection batchSize = .ok st ∧
      st.hooked = handedToHooks s.IgnoreErrors loader ∧
      st.inserts.flatten =
        ((handedToHooks s.IgnoreErrors loader).filterMap (transformed s)).map some := by
  obtain ⟨st, h, hh, hw⟩ := processLoop_written s env collection batchSize loader
    (ProcState.init
      { File := filename, Collection := s.Collection, Succeeded := 0, Failed := 0,
        errors := [] }
      (List.replicate batchSize.toNat none))
    (by simp [ProcState.init]; omega) (by simp [ProcState.init]; omega)
  refine ⟨st, ?_, by simpa [ProcState.init] using hh, by simpa [ProcState.init] using hw⟩
  unfold processFile
  simp only [hopen, hldr]
  rw [if_neg (by omega)]
  exact h

/-! ### Theorems about processFile -/

/-- C3 (the code at the failing input): a source that is not error-tolerant, a loader whose
only `Load` before `io.EOF` returns a decode error, batch size 1. One record was observed,
yet the result has `Succeeded = 1` and `Failed = 1`. -/
theorem processFile_decode_error_counted_twice :
    ∃ st, processFile (sampleSource false) sampleEnv "a.xml"
        (fun _ => .ok [{ entry := 0, err := some (.errorf "bad") }]) sampleCollection 1 = .ok st ∧
      st.observed = 1 ∧ st.result.Succeeded = 1 ∧ st.result.Failed = 1 ∧
      ¬ (st.result.Succeeded + st.result.Failed ≤ st.observed) :=
  ⟨_, rfl, rfl, rfl, rfl, by decide⟩

/-- C4 (the code at the failing input): a source that is not error-tolerant, a loader that
returns a decode error (with entry 0), then the record 7, then `io.EOF`, batch size 2. After
the decode error the code hands entry 0 to the hooks, stores the outcome in the batch, and
calls `Load` twice more; entry 0 is written together with record 7. -/
theorem processFile_decode_error_does_not_stop :
    ∃ st, processFile (sampleSource false) sampleEnv "a.xml"
        (fun _ => .ok [{ entry := 0, err := some (.errorf "bad") }, { entry := 7, err := none }])
        sampleCollection 2 = .ok st ∧
      st.loads = 3 ∧ st.hooked = [0, 7] ∧ st.inserts = [[some 100, some 107], []] ∧
      st.result.Failed = 1 ∧ st.result.errors = [.errorf "bad"] ∧ st.result.Succeeded = 2 :=
  ⟨_, rfl, rfl, rfl, rfl, rfl, rfl, rfl⟩

/-- C5 (the claim as stated fails): one record, batch size 1, every `insert` failing. No
batch was accepted, so the batches whose `insert` returned no error have total size 0, yet
the result has `Succeeded = 1`. -/
theorem processFile_failed_insert_counted :
    ∃ st, processFile (sampleSource true) failingInsertEnv "a.xml"
        (fun _ => .ok (recordsLoader [1])) sampleCollection 1 = .ok st ∧
      st.inserts = [[some 101], []] ∧
      acceptedSize failingInsertEnv sampleCollection 0 st.inserts = 0 ∧
      st.result.Succeeded = 1 ∧
      st.result.errors = [.errorf "write failed", .errorf "write failed"] :=
  ⟨_, rfl, rfl, rfl, rfl, rfl⟩

/-- C7 (the claim as stated fails): two records that pass both hooks, batch size 2. The
code makes two `insert` calls, not `ceil(2/2) = 1`: the full batch, then the final flush
with an empty batch. -/
theorem processFile_final_flush_empty_batch :
    ∃ st, processFile (sampleSource true) sampleEnv "a.xml"
        (fun _ => .ok (recordsLoader [1, 2])) sampleCollection 2 = .ok st ∧
      st.inserts = [[some 101, some 102], []] ∧
      st.inserts.length ≠ (2 + 2 - 1) / 2 :=
  ⟨_, rfl, rfl, by decide⟩

/-- C7 (amended): for a file that opens and whose loader yields `k` records that all pass
both hooks and then `io.EOF`, and a batch size `b ≥ 1` that `make` can allocate
(`b ≤ env.maxSliceLen`), `processFile` returns after exactly `k / b + 1` `insert` calls:
`k / b` calls with `b` records each, then the final flush with `k % b` records (an empty
batch when `b` divides `k`). -/
theorem processFile_insert_calls {File Entry Dumped : Type} (s : Datasource Entry Dumped)
    (env : Env File Dumped) (filename : String) (ldr : File → Except GoError (Loader Entry))
    (collection : Collection) (batchSize : Int) (file : File) (recs : List Entry)
    (hb : 1 ≤ batchSize) (hmax : batchSize ≤ env.maxSliceLen)
    (hopen : env.openFile filename = .ok file)
    (hldr : ldr file = .ok (recordsLoader recs))
    (hpass : ∀ e ∈ recs, ∃ loaded dumped,
      s.PostLoad e = .ok loaded ∧ s.PreDump loaded = .ok dumped) :
    ∃ st, processFile s env filename ldr collection batchSize = .ok st ∧
      st.inserts.map List.length =
        List.replicate (recs.length / batchSize.toNat) batchSize.toNat ++
          [recs.length % batchSize.toNat] ∧
      st.inserts.length = recs.length / batchSize.toNat + 1 := by
  obtain ⟨st, h, hs⟩ := processLoop_batch_sizes s env collection batchSize recs hpass
    (ProcState.init
      { File := filename, Collection := s.Collection, Succeeded := 0, Failed := 0,
        errors := [] }
      (List.replicate batchSize.toNat none))
    (by simp [ProcState.init]; omega) (by simp [ProcState.init]; omega)
  have hs' : st.inserts.map List.length =
      List.replicate (recs.length / batchSize.toNat) batchSize.toNat ++
        [recs.length % batchSize.toNat] := by
    simpa [ProcState.init] using hs
  refine ⟨st, ?_, hs', ?_⟩
  · unfold processFile
    simp only [hopen, hldr]
    rw [if_neg (by omega)]
    exact h
  · have hlen := congrArg List.length hs'
    simpa using hlen

/-- C7 (amended) at the scenario of the specification: three records, batch size 2, give
exactly two writes, of 2 records and of 1 record. -/
theorem processFile_insert_calls_witness :
    ∃ st, processFile (sampleSource true) sampleEnv "a.xml"
        (fun _ => .ok (recordsLoader [1, 2, 3])) sampleCollection 2 = .ok st ∧
      st.inserts.map List.length = [2, 1] ∧ st.inserts.length = 2 :=
  processFile_insert_calls (sampleSource true) sampleEnv "a.xml"
    (fun _ => .ok (recordsLoader [1, 2, 3])) sampleCollection 2 () [1, 2, 3] (by decide)
    (by decide) rfl rfl (fun e _ => ⟨e, e + 100, rfl, rfl⟩)

/-- C6 (the code at the failing input): one record, which the `PostLoad` hook rejects. The
record is counted in `Failed`, but the hook's error is not in the error list, which stays
empty. -/
theorem processFile_hook_error_not_recorded :
    ∃ st, processFile rejectingSource sampleEnv "a.xml" (fun _ => .ok (recordsLoader [1]))
        sampleCollection 1 = .ok st ∧
      st.hooked = [1] ∧ rejectingSource.PostLoad 1 = .error (.errorf "rejected") ∧
      st.result.Failed = 1 ∧ st.result.errors = [] ∧
      ¬ (st.result.Failed ≤ st.result.errors.length) :=
  ⟨_, rfl, rfl, rfl, rfl, rfl, by decide⟩

/-- C8 (the code at the failing input): a source that is not error-tolerant and a loader
whose only `Load` before `io.EOF` returns a decode error: no record was loaded, yet the
batches handed to `insert` concatenate to one written value, made from the entry that came
with the error. -/
theorem processFile_writes_entry_of_failed_load :
    ∃ st, processFile (sampleSource false) sampleEnv "a.xml"
        (fun _ => .ok [{ entry := 0, err := some (.errorf "bad") }]) sampleCollection 1 = .ok st ∧
      st.inserts = [[some 100], []] ∧ st.inserts.flatten = [some 100] ∧
      st.result.errors = [.errorf "bad"] :=
  ⟨_, rfl, rfl, rfl, rfl⟩

/-- C9: when `openFile` fails on `filename`, `processFile` returns a result with
`File = filename`, the collection of the source, `Succeeded = 0`, `Failed = 0` and an error
list holding the open error alone; it made no `Load` call, no hook call and no `insert`
call (it does not even reach `ldr.Create`, whatever `ldr` is). -/
theorem processFile_open_failure {File Entry Dumped : Type} (s : Datasource Entry Dumped)
    (env : Env File Dumped) (filename : String) (ldr : File → Except GoError (Loader Entry))
    (collection : Collection) (batchSize : Int) (err : GoError)
    (hopen : env.openFile filename = .error err) :
    ∃ st, processFile s env filename ldr collection batchSize = .ok st ∧
      st.result = { File := filename, Collection := s.Collection, Succeeded := 0, Failed := 0,
                    errors := [err] } ∧
      st.loads = 0 ∧ st.hooked = [] ∧ st.inserts = [] := by
  simp only [processFile, hopen]
  exact ⟨_, rfl, rfl, rfl, rfl, rfl⟩

/-- C9 at a concrete input: no file opens, batch size 2. -/
theorem processFile_open_failure_witness :
    closedEnv.openFile "a.xml" = .error (.errorf "no such file") ∧
    ∃ st, processFile (sampleSource false) closedEnv "a.xml"
        (fun _ => .ok (recordsLoader [1, 2, 3])) sampleCollection 2 = .ok st ∧
      st.result = { File := "a.xml", Collection := (sampleSource false).Collection,
                    Succeeded := 0, Failed := 0, errors := [.errorf "no such file"] } ∧
      st.loads = 0 ∧ st.hooked = [] ∧ st.inserts = [] :=
  ⟨rfl, processFile_open_failure (sampleSource false) closedEnv "a.xml"
    (fun _ => .ok (recordsLoader [1, 2, 3])) sampleCollection 2 (.errorf "no such file") rfl⟩

/-! ### Further theorems about the producer -/

/-- C11 (the code at the failing input): the error of an exhausted provider is never
`io.EOF`. A source whose provider captured a single match, whatever the pattern and the
path, is exhausted; the producer step on it takes the branch that logs a warning, with the
error `No more files`, and not the branch for `io.EOF`, which logs nothing. -/
theorem produceStep_exhausted_logs_warning :
    (∀ pattern m : String,
      (Glob.prepared pattern [m]).NextFile.toOption.bind (fun r => r.err) =
        some (.errorf "No more files")) ∧
    GoError.errorf "No more files" ≠ GoError.EOF ∧
    ∀ pattern m : String,
      produceStep (twoSourcesImport 1) 0
          { sampleSource true with FileProvider := Glob.prepared pattern [m] }
          { done := true, produced := 0, jobChan := [], warnings := [], pulled := 0 } =
        .ok ({ sampleSource true with FileProvider := Glob.prepared pattern [m] },
             { done := true, produced := 0, jobChan := [],
               warnings := [.errorf "No more files"], pulled := 0 }) :=
  ⟨fun _ _ => rfl, by decide, fun _ _ => rfl⟩

/-- C16 (the code at the failing input): four sources with a file to hand out each and
`MaxParallelism = 1`. The cap is `2 * 1 + 1 = 3` jobs in a round, yet the first round pulls
from all four sources and sends four jobs: `produced` is still 0 after the round. -/
theorem produceRound_cap_never_applies :
    ∃ sources st, prepareSources twoFilesGlob (fourSourcesImport 1).Sources = .ok sources ∧
      produceRound (fourSourcesImport 1) 0 sources
        { done := true, produced := 0, jobChan := [], warnings := [], pulled := 0 } =
        .ok st ∧
      st.2.jobChan.map (fun j => (j.Source, j.File)) =
        [(0, "a/2.xml"), (1, "b/2.xml"), (2, "c/2.xml"), (3, "d/2.xml")] ∧
      st.2.pulled = 4 ∧ st.2.produced = 0 ∧
      ¬ ((st.2.jobChan.length : Int) ≤ 2 * (fourSourcesImport 1).MaxParallelism + 1) :=
  ⟨_, _, rfl, rfl, rfl, rfl, rfl, by decide⟩

/-! ### Lemmas about the counts of a run -/

theorem handedToHooks_tolerant {Entry : Type} (loader : Loader Entry) :
    handedToHooks true loader = loadedRecords loader := by
  induction loader with
  | nil => rfl
  | cons r rest ih =>
    unfold handedToHooks loadedRecords
    split <;> simp_all

theorem flush_counts {File Entry Dumped : Type} (env : Env File Dumped)
    (collection : Collection) (st st' : ProcState Entry Dumped)
    (h : flush env collection st = .ok st') :
    st'.result.Failed = st.result.Failed ∧
    (∃ x, st'.result.errors = st.result.errors ++ x) ∧
    st'.loads = st.loads ∧ st'.observed = st.observed := by
  unfold flush at h
  split at h
  · injection h with h
    subst h
    refine ⟨rfl, ?_, rfl, rfl⟩
    simp only
    split
    · exact ⟨_, rfl⟩
    · exact ⟨[], by simp⟩
  · exact absurd h (by simp)

theorem transformAndBatch_counts {File Entry Dumped : Type} (s : Datasource Entry Dumped)
    (env : Env File Dumped) (collection : Collection) (batchSize : Int) (entry : Entry)
    (st st' : ProcState Entry Dumped)
    (h : transformAndBatch s env collection batchSize entry st = .ok st') :
    st'.result.Failed = st.result.Failed + (if (transformed s entry).isNone then 1 else 0) ∧
    (∃ x, st'.result.errors = st.result.errors ++ x) ∧
    st'.loads = st.loads ∧ st'.observed = st.observed := by
  unfold transformAndBatch at h
  simp only at h
  cases hP : s.PostLoad entry with
  | error e =>
    have ht : transformed s entry = none := by simp [transformed, hP]
    simp only [hP] at h
    injection h with h
    subst h
    exact ⟨by simp [ht], ⟨[], by simp⟩, rfl, rfl⟩
  | ok loaded =>
    simp only [hP] at h
    cases hD : s.PreDump loaded with
    | error e =>
      have ht : transformed s entry = none := by simp [transformed, hP, hD]
      simp only [hD] at h
      injection h with h
      subst h
      exact ⟨by simp [ht], ⟨[], by simp⟩, rfl, rfl⟩
    | ok dumped =>
      have ht : transformed s entry = some dumped := by simp [transformed, hP, hD]
      simp only [hD] at h
      split at h
      · split at h
        · split at h
          · exact absurd h (by simp)
          · rename_i stf hf
            injection h with h
            subst h
            obtain ⟨h1, h2, h3, h4⟩ := flush_counts env collection _ stf hf
            exact ⟨by simpa [ht] using h1, h2, h3, h4⟩
        · injection h with h
          subst h
          exact ⟨by simp [ht], ⟨[], by simp⟩, rfl, rfl⟩
      · exact absurd h (by simp)

theorem processLoop_counts {File Entry Dumped : Type} (s : Datasource Entry Dumped)
    (env : Env File Dumped) (collection : Collection) (batchSize : Int)
    (loader : Loader Entry) :
    ∀ (st st' : ProcState Entry Dumped),
      processLoop s env collection batchSize loader st = .ok st' →
      st'.result.Failed = st.result.Failed + (decodeErrors loader).length +
        ((handedToHooks s.IgnoreErrors loader).filter
          (fun e => (transformed s e).isNone)).length ∧
      List.Sublist (st.result.errors ++ decodeErrors loader) st'.result.errors := by
  induction loader with
  | nil =>
    intro st st' h
    unfold processLoop at h
    obtain ⟨h1, ⟨x, h2⟩, -, -⟩ := flush_counts env collection _ st' h
    refine ⟨by simpa [decodeErrors, handedToHooks] using h1, ?_⟩
    rw [h2]
    simp [decodeErrors]
  | cons r rest ih =>
    intro st st' h
    have hstep : ∀ st₀ : ProcState Entry Dumped,
        (match transformAndBatch s env collection batchSize r.entry st₀ with
          | .error p => Except.error p
          | .ok st => processLoop s env collection batchSize rest st) = .ok st' →
        st'.result.Failed = st₀.result.Failed + (decodeErrors rest).length +
          ((r.entry :: handedToHooks s.IgnoreErrors rest).filter
            (fun e => (transformed s e).isNone)).length ∧
        List.Sublist (st₀.result.errors ++ decodeErrors rest) st'.result.errors := by
      intro st₀ h₀
      split at h₀
      · exact absurd h₀ (by simp)
      · rename_i st1 h1
        obtain ⟨hf1, ⟨x, he1⟩, -, -⟩ := transformAndBatch_counts s env collection batchSize _ _
          st1 h1
        obtain ⟨hf', he'⟩ := ih st1 st' h₀
        refine ⟨?_, ?_⟩
        · rw [hf', hf1, List.filter_cons]
          split <;> simp_all
          omega
        · refine List.Sublist.trans ?_ he'
          rw [he1]
          simp
    unfold processLoop at h
    simp only at h
    split at h
    · rename_i heof
      obtain ⟨h1, ⟨x, h2⟩, -, -⟩ := flush_counts env collection _ st' h
      refine ⟨by simpa [decodeErrors, handedToHooks, heof] using h1, ?_⟩
      rw [h2]
      simp [decodeErrors, heof]
    · rename_i err hne herr
      have hd : decodeErrors (r :: rest) = err :: decodeErrors rest := by
        cases err with
        | EOF => exact absurd rfl hne
        | errorf msg => simp [decodeErrors, herr]
      have hh : handedToHooks s.IgnoreErrors (r :: rest) =
          if s.IgnoreErrors then handedToHooks s.IgnoreErrors rest
          else r.entry :: handedToHooks s.IgnoreErrors rest := by
        cases err with
        | EOF => exact absurd rfl hne
        | errorf msg => simp [handedToHooks, herr]
      rw [hd, hh]
      by_cases hig : s.IgnoreErrors = true
      · simp only [if_pos hig] at h ⊢
        obtain ⟨hf', he'⟩ := ih _ st' h
        refine ⟨by simp only at hf'; rw [hf']; simp; omega, ?_⟩
        simpa using he'
      · simp only [if_neg hig] at h ⊢
        obtain ⟨hf', he'⟩ := hstep _ h
        refine ⟨by simp only at hf'; rw [hf']; simp; omega, ?_⟩
        simpa using he'
    · rename_i hnone
      have hd : decodeErrors (r :: rest) = decodeErrors rest := by
        simp [decodeErrors, hnone]
      have hh : handedToHooks s.IgnoreErrors (r :: rest) =
          r.entry :: handedToHooks s.IgnoreErrors rest := by
        simp [handedToHooks, hnone]
      rw [hd, hh]
      exact hstep { st with loads := st.loads + 1, observed := st.observed + 1 } h

theorem flush_bounded {File Entry Dumped : Type} (env : Env File Dumped)
    (collection : Collection) (st st' : ProcState Entry Dumped) (n : Nat)
    (h : flush env collection st = .ok st') (hlen : st.batch.length ≤ n)
    (hins : ∀ b ∈ st.inserts, b.length ≤ n) :
    ∀ b ∈ st'.inserts, b.length ≤ n := by
  unfold flush at h
  split at h
  · injection h with h
    subst h
    intro b hb
    simp only [List.mem_append, List.mem_singleton] at hb
    rcases hb with hb | hb
    · exact hins b hb
    · subst hb
      simp only [List.length_take]
      omega
  · exact absurd h (by simp)

theorem transformAndBatch_bounded {File Entry Dumped : Type} (s : Datasource Entry Dumped)
    (env : Env File Dumped) (collection : Collection) (batchSize : Int) (entry : Entry)
    (st st' : ProcState Entry Dumped) (n : Nat)
    (h : transformAndBatch s env collection batchSize entry st = .ok st')
    (hlen : st.batch.length ≤ n) (hins : ∀ b ∈ st.inserts, b.length ≤ n) :
    st'.batch.length = st.batch.length ∧ ∀ b ∈ st'.inserts, b.length ≤ n := by
  unfold transformAndBatch at h
  simp only at h
  split at h
  · injection h with h
    subst h
    exact ⟨rfl, hins⟩
  · split at h
    · injection h with h
      subst h
      exact ⟨rfl, hins⟩
    · split at h
      · split at h
        · split at h
          · exact absurd h (by simp)
          · rename_i stf hf
            injection h with h
            subst h
            have hb := flush_bounded env collection _ stf n hf (by simpa using hlen) hins
            have hbatch : stf.batch.length = st.batch.length := by
              unfold flush at hf
              split at hf
              · injection hf with hf
                subst hf
                simp
              · exact absurd hf (by simp)
            exact ⟨hbatch, hb⟩
        · injection h with h
          subst h
          exact ⟨by simp, hins⟩
      · exact absurd h (by simp)

theorem processLoop_bounded {File Entry Dumped : Type} (s : Datasource Entry Dumped)
    (env : Env File Dumped) (collection : Collection) (batchSize : Int)
    (loader : Loader Entry) (n : Nat) :
    ∀ (st st' : ProcState Entry Dumped),
      processLoop s env collection batchSize loader st = .ok st' →
      st.batch.length ≤ n → (∀ b ∈ st.inserts, b.length ≤ n) →
      ∀ b ∈ st'.inserts, b.length ≤ n := by
  induction loader with
  | nil =>
    intro st st' h hlen hins
    unfold processLoop at h
    exact flush_bounded env collection _ st' n h hlen hins
  | cons r rest ih =>
    intro st st' h hlen hins
    have hstep : ∀ st₀ : ProcState Entry Dumped,
        (match transformAndBatch s env collection batchSize r.entry st₀ with
          | .error p => Except.error p
          | .ok st => processLoop s env collection batchSize rest st) = .ok st' →
        st₀.batch.length ≤ n → (∀ b ∈ st₀.inserts, b.length ≤ n) →
        ∀ b ∈ st'.inserts, b.length ≤ n := by
      intro st₀ h₀ hlen₀ hins₀
      split at h₀
      · exact absurd h₀ (by simp)
      · rename_i st1 h1
        obtain ⟨hl1, hi1⟩ := transformAndBatch_bounded s env collection batchSize _ _ st1 n h1
          hlen₀ hins₀
        exact ih st1 st' h₀ (by rw [hl1]; exact hlen₀) hi1
    unfold processLoop at h
    simp only at h
    split at h
    · exact flush_bounded env collection _ st' n h hlen hins
    · split at h
      · exact ih _ st' h hlen hins
      · exact hstep _ h hlen hins
    · exact hstep _ h hlen hins

theorem processFile_eq_processLoop {File Entry Dumped : Type} (s : Datasource Entry Dumped)
    (env : Env File Dumped) (filename : String) (ldr : File → Except GoError (Loader Entry))
    (collection : Collection) (batchSize : Int) (file : File) (loader : Loader Entry)
    (hb : 0 ≤ batchSize) (hmax : batchSize ≤ env.maxSliceLen)
    (hopen : env.openFile filename = .ok file) (hldr : ldr file = .ok loader) :
    processFile s env filename ldr collection batchSize =
      processLoop s env collection batchSize loader
        (ProcState.init
          { File := filename, Collection := s.Collection, Succeeded := 0, Failed := 0,
            errors := [] }
          (List.replicate batchSize.toNat none)) := by
  unfold processFile
  simp only [hopen, hldr]
  rw [if_neg (by omega)]

theorem Accounted.init {File Entry Dumped : Type} (env : Env File Dumped)
    (collection : Collection) (result : PartialResult) (batch : List (Option Dumped))
    (h0 : result.Succeeded = 0) :
    Accounted env collection (ProcState.init result batch : ProcState Entry Dumped) := by
  refine ⟨by simp [ProcState.init, h0], ?_⟩
  intro k b err hk
  simp [ProcState.init] at hk

/-! ### Further theorems about processFile -/

/-! ### Lemmas about a batch without slots -/

theorem transformAndBatch_empty_batch {File Entry Dumped : Type} (s : Datasource Entry Dumped)
    (env : Env File Dumped) (collection : Collection) (batchSize : Int) (entry : Entry)
    (st : ProcState Entry Dumped) (hbatch : st.batch = []) :
    transformAndBatch s env collection batchSize entry st =
      match transformed s entry with
      | none => .ok { st with
          hooked := st.hooked ++ [entry]
          result := { st.result with Failed := st.result.Failed + 1 } }
      | some _ => .error "index out of range" := by
  unfold transformAndBatch transformed
  simp only
  cases hP : s.PostLoad entry with
  | error e => rfl
  | ok loaded =>
    simp only
    cases hD : s.PreDump loaded with
    | error e => rfl
    | ok dumped => simp [hbatch]

theorem processLoop_empty_batch {File Entry Dumped : Type} (s : Datasource Entry Dumped)
    (env : Env File Dumped) (collection : Collection) (batchSize : Int)
    (loader : Loader Entry) :
    ∀ (st : ProcState Entry Dumped), st.batch = [] → st.batched = 0 →
      ((handedToHooks s.IgnoreErrors loader).filterMap (transformed s) = [] →
        ∃ st', processLoop s env collection batchSize loader st = .ok st' ∧
          st'.inserts = st.inserts ++ [[]] ∧
          st'.result.Succeeded = st.result.Succeeded) ∧
      ((handedToHooks s.IgnoreErrors loader).filterMap (transformed s) ≠ [] →
        processLoop s env collection batchSize loader st = .error "index out of range") := by
  induction loader with
  | nil =>
    intro st hbatch hn
    refine ⟨fun _ => ?_, fun hne => absurd rfl hne⟩
    simp [processLoop, flush, hbatch, hn]
  | cons r rest ih =>
    intro st hbatch hn
    have hstep : ∀ st₀ : ProcState Entry Dumped, st₀.batch = [] → st₀.batched = 0 →
        (((r.entry :: handedToHooks s.IgnoreErrors rest).filterMap (transformed s) = [] →
          ∃ st', (match transformAndBatch s env collection batchSize r.entry st₀ with
              | .error p => Except.error p
              | .ok st => processLoop s env collection batchSize rest st) = .ok st' ∧
            st'.inserts = st₀.inserts ++ [[]] ∧
            st'.result.Succeeded = st₀.result.Succeeded) ∧
        ((r.entry :: handedToHooks s.IgnoreErrors rest).filterMap (transformed s) ≠ [] →
          (match transformAndBatch s env collection batchSize r.entry st₀ with
              | .error p => Except.error p
              | .ok st => processLoop s env collection batchSize rest st) =
            .error "index out of range")) := by
      intro st₀ hbatch₀ hn₀
      rw [transformAndBatch_empty_batch s env collection batchSize r.entry st₀ hbatch₀,
        List.filterMap_cons]
      cases ht : transformed s r.entry with
      | none =>
        simp only
        exact ih _ hbatch₀ hn₀
      | some d =>
        simp
    unfold processLoop
    simp only
    split
    · rename_i heof
      have hh : handedToHooks s.IgnoreErrors (r :: rest) = [] := by
        simp [handedToHooks, heof]
      rw [hh]
      refine ⟨fun _ => ?_, fun hne => absurd rfl hne⟩
      simp [flush, hbatch, hn]
    · rename_i err hne herr
      have hh : handedToHooks s.IgnoreErrors (r :: rest) =
          if s.IgnoreErrors then handedToHooks s.IgnoreErrors rest
          else r.entry :: handedToHooks s.IgnoreErrors rest := by
        cases err with
        | EOF => exact absurd rfl hne
        | errorf msg => simp [handedToHooks, herr]
      rw [hh]
      by_cases hig : s.IgnoreErrors = true
      · simp only [if_pos hig]
        exact ih _ hbatch hn
      · simp only [if_neg hig]
        exact hstep _ hbatch hn
    · rename_i hnone
      have hh : handedToHooks s.IgnoreErrors (r :: rest) =
          r.entry :: handedToHooks s.IgnoreErrors rest := by
        simp [handedToHooks, hnone]
      rw [hh]
      exact hstep _ hbatch hn

/-- C14 (the claim as stated fails): with batch size 0 and a file of one record that passes
both hooks, `processFile` panics at the store into the empty batch; with batch size -1 it
panics when it allocates the batch. Nothing is written in either run. -/
theorem processFile_zero_batchSize_panics :
    processFile (sampleSource true) sampleEnv "a.xml" (fun _ => .ok (recordsLoader [1]))
        sampleCollection 0 = .error "index out of range" ∧
    processFile (sampleSource true) sampleEnv "a.xml" (fun _ => .ok (recordsLoader [1]))
        sampleCollection (-1) = .error "makeslice: len out of range" :=
  ⟨rfl, rfl⟩

/-- C14 (amended): for a file that opens and whose loader is created, a negative batch size
makes `processFile` panic when it allocates the batch. With batch size 0 it panics with an
index out of range at the first entry that passes both hooks; it returns exactly when no
entry handed to the hooks passes both, and then it has made one `insert` call, with an
empty batch, and `Succeeded` is 0. -/
theorem processFile_nonpositive_batchSize {File Entry Dumped : Type}
    (s : Datasource Entry Dumped) (env : Env File Dumped) (filename : String)
    (ldr : File → Except GoError (Loader Entry)) (collection : Collection) (batchSize : Int)
    (file : File) (loader : Loader Entry)
    (hopen : env.openFile filename = .ok file) (hldr : ldr file = .ok loader) :
    (batchSize < 0 →
      processFile s env filename ldr collection batchSize =
        .error "makeslice: len out of range") ∧
    (batchSize = 0 →
      ((handedToHooks s.IgnoreErrors loader).filterMap (transformed s) = [] →
        ∃ st, processFile s env filename ldr collection batchSize = .ok st ∧
          st.inserts = [[]] ∧ st.result.Succeeded = 0) ∧
      ((handedToHooks s.IgnoreErrors loader).filterMap (transformed s) ≠ [] →
        processFile s env filename ldr collection batchSize =
          .error "index out of range")) := by
  constructor
  · intro hneg
    unfold processFile
    simp only [hopen, hldr]
    rw [if_pos (Or.inl hneg)]
  · intro h0
    have hloop := processFile_eq_processLoop s env filename ldr collection batchSize file
      loader (by omega) (by omega) hopen hldr
    have hl := processLoop_empty_batch s env collection batchSize loader
      (ProcState.init
        { File := filename, Collection := s.Collection, Succeeded := 0, Failed := 0,
          errors := [] }
        (List.replicate batchSize.toNat none))
      (by simp [ProcState.init, h0]) rfl
    rw [hloop]
    refine ⟨fun hnone => ?_, hl.2⟩
    obtain ⟨st, h, hi, hs⟩ := hl.1 hnone
    exact ⟨st, h, by simpa [ProcState.init] using hi, by simpa [ProcState.init] using hs⟩

/-- C14 (amended) at concrete inputs: batch size 0; a file of one record that passes both
hooks panics, a file whose only record the `PostLoad` hook rejects returns after one
`insert` call with an empty batch. -/
theorem processFile_nonpositive_batchSize_witness :
    processFile (sampleSource true) sampleEnv "a.xml" (fun _ => .ok (recordsLoader [1]))
        sampleCollection 0 = .error "index out of range" ∧
    ∃ st, processFile rejectingSource sampleEnv "a.xml" (fun _ => .ok (recordsLoader [1]))
        sampleCollection 0 = .ok st ∧ st.inserts = [[]] ∧ st.result.Succeeded = 0 :=
  ⟨((processFile_nonpositive_batchSize (sampleSource true) sampleEnv "a.xml"
      (fun _ => .ok (recordsLoader [1])) sampleCollection 0 () _ rfl rfl).2
      rfl).2 (by decide),
   ((processFile_nonpositive_batchSize rejectingSource sampleEnv "a.xml"
      (fun _ => .ok (recordsLoader [1])) sampleCollection 0 () _ rfl rfl).2
      rfl).1 rfl⟩

/-! ### Theorems about the worker -/

/-- C15 (the claim as stated fails): a worker receives two jobs; the first has batch size 0
and a file with a record, so `processFile` panics on it. The worker publishes no result at
all, neither for that job nor for the second one, and ends with the panic. -/
theorem worker_panic_ends_worker :
    worker [sampleSource true] sampleEnv (fun _ _ => .ok (recordsLoader [1]))
        [sampleJob "a.xml" 0, sampleJob "b.xml" 1] [] =
      { resultsChan := [], panic := some "index out of range" } ∧
    runJob [sampleSource true] sampleEnv (fun _ _ => .ok (recordsLoader [1]))
        (sampleJob "b.xml" 1) =
      .ok { File := "b.xml", Collection := "books", Succeeded := 1, Failed := 0,
            errors := [] } :=
  ⟨rfl, rfl⟩

/-- C15 (amended): a worker publishes exactly one `PartialResult` per job, in order, for the
jobs it receives before the first one on which `processFile` panics; if there is none it
leaves its loop at the close of the channel having published one result per job received.
A panic is not caught: the worker ends with it, publishes nothing for that job and
processes none of the jobs after it. -/
theorem worker_results {File Entry Dumped : Type} (sources : List (Datasource Entry Dumped))
    (env : Env File Dumped) (ldr : Nat → File → Except GoError (Loader Entry))
    (done : List (ImportJob × PartialResult))
    (hdone : ∀ d ∈ done, runJob sources env ldr d.1 = .ok d.2) :
    worker sources env ldr (done.map Prod.fst) [] =
      { resultsChan := done.map Prod.snd, panic := none } ∧
    ∀ (j : ImportJob) (later : List ImportJob) (p : Panic),
      runJob sources env ldr j = .error p →
      worker sources env ldr (done.map Prod.fst ++ j :: later) [] =
        { resultsChan := done.map Prod.snd, panic := some p } := by
  have key : ∀ (done : List (ImportJob × PartialResult)) (tail : List ImportJob)
      (sent : List PartialResult),
      (∀ d ∈ done, runJob sources env ldr d.1 = .ok d.2) →
      worker sources env ldr (done.map Prod.fst ++ tail) sent =
        worker sources env ldr tail (sent ++ done.map Prod.snd) := by
    intro done
    induction done with
    | nil => intro tail sent _; simp
    | cons d ds ih =>
      intro tail sent hok
      have hd := hok d (List.mem_cons_self _ _)
      have h1 := ih tail (sent ++ [d.2]) (fun x hx => hok x (List.mem_cons_of_mem _ hx))
      simp only [List.map_cons, List.cons_append]
      rw [worker]
      simp only [hd]
      rw [h1]
      simp
  constructor
  · have := key done [] [] hdone
    simpa [worker] using this
  · intro j later p hj
    rw [key done (j :: later) [] hdone]
    simp [worker, hj]

/-- C15 (amended) at a concrete input: two jobs that `processFile` completes, then one on
which it panics, then one more. Two results are published, and the worker ends with the
panic. -/
theorem worker_results_witness :
    worker [sampleSource true] sampleEnv (fun _ _ => .ok (recordsLoader [1]))
        [sampleJob "a.xml" 1, sampleJob "b.xml" 2, sampleJob "c.xml" 0, sampleJob "d.xml" 1]
        [] =
      { resultsChan :=
          [{ File := "a.xml", Collection := "books", Succeeded := 1, Failed := 0, errors := [] },
           { File := "b.xml", Collection := "books", Succeeded := 1, Failed := 0, errors := [] }]
        panic := some "index out of range" } :=
  (worker_results [sampleSource true] sampleEnv (fun _ _ => .ok (recordsLoader [1]))
    [(sampleJob "a.xml" 1, { File := "a.xml", Collection := "books", Succeeded := 1,
                             Failed := 0, errors := [] }),
     (sampleJob "b.xml" 2, { File := "b.xml", Collection := "books", Succeeded := 1,
                             Failed := 0, errors := [] })]
    (by intro d hd; simp at hd; rcases hd with rfl | rfl <;> rfl)).2
    (sampleJob "c.xml" 0) [sampleJob "d.xml" 1] "index out of range" rfl

/-! ### Lemmas about the producer loop -/

theorem NextFile_never_EOF (g : Glob) (r : NextFileResult) (h : g.NextFile = .ok r) :
    r.err ≠ some .EOF := by
  unfold Glob.NextFile at h
  split at h
  · injection h with h
    subst h
    simp
  · simp only at h
    split at h
    · injection h with h
      subst h
      simp
    · exact absurd h (by simp)

theorem NextFile_exhausted (g : Glob) (h : g.remaining = 0) :
    g.NextFile = .ok { file := "", err := some (.errorf "No more files"), provider := g } := by
  unfold Glob.NextFile
  rw [if_pos (by unfold Glob.remaining at h; omega)]

theorem NextFile_remaining (g : Glob) (hwf : g.matchCount = g.«matches».length)
    (h : 0 < g.remaining) :
    ∃ file, g.NextFile =
      .ok { file := file, err := none, provider := { g with index := g.index + 1 } } := by
  unfold Glob.remaining at h
  have hlt : g.index + 1 < g.«matches».length := by omega
  unfold Glob.NextFile
  rw [if_neg (by omega)]
  simp only
  rw [List.getElem?_eq_getElem hlt]
  exact ⟨_, rfl⟩

theorem produceStep_capped {Entry Dumped : Type} (i : Import Entry Dumped) (k : Nat)
    (s : Datasource Entry Dumped) (st : RoundState)
    (hcap : st.produced > wrapInt64 (2 * i.MaxParallelism)) :
    produceStep i k s st = .ok (s, st) := by
  unfold produceStep
  rw [if_pos hcap]

theorem produceStep_uncapped {Entry Dumped : Type} (i : Import Entry Dumped) (k : Nat)
    (s : Datasource Entry Dumped) (st : RoundState)
    (hcap : ¬ st.produced > wrapInt64 (2 * i.MaxParallelism))
    (hwf : s.FileProvider.matchCount = s.FileProvider.«matches».length) :
    ∃ s' st', produceStep i k s st = .ok (s', st') ∧
      s'.FileProvider.matchCount = s.FileProvider.matchCount ∧
      s'.FileProvider.«matches» = s.FileProvider.«matches» ∧
      s'.FileProvider.remaining = s.FileProvider.remaining - 1 ∧
      st'.produced = st.produced ∧
      st'.pulled = st.pulled + (if 0 < s.FileProvider.remaining then 1 else 0) ∧
      (st'.done = true ↔ st.done = true ∧ s.FileProvider.remaining = 0) := by
  unfold produceStep
  rw [if_neg hcap]
  by_cases hrem : 0 < s.FileProvider.remaining
  · obtain ⟨file, hnf⟩ := NextFile_remaining s.FileProvider hwf hrem
    simp only [hnf]
    rw [if_neg (by simp)]
    have hr : ({ s.FileProvider with index := s.FileProvider.index + 1 } : Glob).remaining =
        s.FileProvider.remaining - 1 := by
      unfold Glob.remaining
      simp only
      omega
    split
    · refine ⟨_, _, rfl, rfl, rfl, hr, rfl, by simp [hrem], ?_⟩
      simp
      omega
    · refine ⟨_, _, rfl, rfl, rfl, hr, rfl, by simp [hrem], ?_⟩
      simp
      omega
  · have h0 : s.FileProvider.remaining = 0 := by omega
    simp only [NextFile_exhausted s.FileProvider h0]
    rw [if_neg (by simp)]
    refine ⟨_, _, rfl, rfl, rfl, ?_, rfl, ?_, ?_⟩
    · show s.FileProvider.remaining = s.FileProvider.remaining - 1
      omega
    · show st.pulled = st.pulled + (if 0 < s.FileProvider.remaining then 1 else 0)
      rw [if_neg hrem, Nat.add_zero]
    · show st.done = true ↔ st.done = true ∧ s.FileProvider.remaining = 0
      exact ⟨fun h => ⟨h, h0⟩, fun h => h.1⟩

theorem produceRound_capped {Entry Dumped : Type} (i : Import Entry Dumped)
    (sources : List (Datasource Entry Dumped)) :
    ∀ (k : Nat) (st : RoundState), st.produced > wrapInt64 (2 * i.MaxParallelism) →
      produceRound i k sources st = .ok (sources, st) := by
  induction sources with
  | nil => intro k st _; rfl
  | cons s rest ih =>
    intro k st hcap
    rw [produceRound, produceStep_capped i k s st hcap]
    simp only [ih (k + 1) st hcap]

theorem produceRound_uncapped {Entry Dumped : Type} (i : Import Entry Dumped)
    (sources : List (Datasource Entry Dumped)) :
    ∀ (k : Nat) (st : RoundState), ¬ st.produced > wrapInt64 (2 * i.MaxParallelism) →
      Prepared sources →
      ∃ sources' st', produceRound i k sources st = .ok (sources', st') ∧
        Prepared sources' ∧
        (∀ m, (∀ s ∈ sources, s.FileProvider.remaining ≤ m + 1) →
          ∀ s ∈ sources', s.FileProvider.remaining ≤ m) ∧
        st'.pulled = st.pulled +
          (sources.filter fun s => decide (0 < s.FileProvider.remaining)).length ∧
        (st'.done = true ↔
          st.done = true ∧ ∀ s ∈ sources, s.FileProvider.remaining = 0) := by
  induction sources with
  | nil =>
    intro k st _ _
    exact ⟨[], st, rfl, by intro s hs; simp at hs, by intro m _ s hs; simp at hs, by simp,
      by simp⟩
  | cons s rest ih =>
    intro k st hcap hwf
    obtain ⟨s', st1, h1, hmc, hms, hrem, hprod, hpull, hdone⟩ :=
      produceStep_uncapped i k s st hcap (hwf s (List.mem_cons_self _ _))
    obtain ⟨rest', st', h2, hwf', hbound, hpull', hdone'⟩ := ih (k + 1) st1
      (by rw [hprod]; exact hcap) (fun x hx => hwf x (List.mem_cons_of_mem _ hx))
    refine ⟨s' :: rest', st', ?_, ?_, ?_, ?_, ?_⟩
    · rw [produceRound, h1]
      simp only [h2]
    · intro x hx
      rcases List.mem_cons.mp hx with rfl | hx
      · rw [hmc, hms]
        exact hwf s (List.mem_cons_self _ _)
      · exact hwf' x hx
    · intro m hm x hx
      rcases List.mem_cons.mp hx with rfl | hx
      · have := hm s (List.mem_cons_self _ _)
        omega
      · exact hbound m (fun y hy => hm y (List.mem_cons_of_mem _ hy)) x hx
    · rw [hpull', hpull, List.filter_cons]
      by_cases h0 : 0 < s.FileProvider.remaining
      · simp [h0]
        omega
      · simp [h0]
    · rw [hdone', hdone]
      constructor
      · rintro ⟨⟨hd, hs0⟩, hall⟩
        refine ⟨hd, ?_⟩
        intro x hx
        rcases List.mem_cons.mp hx with rfl | hx
        · exact hs0
        · exact hall x hx
      · rintro ⟨hd, hall⟩
        exact ⟨⟨hd, hall s (List.mem_cons_self _ _)⟩,
          fun x hx => hall x (List.mem_cons_of_mem _ hx)⟩

theorem producerLoop_terminates {Entry Dumped : Type} (i : Import Entry Dumped) :
    ∀ (m fuel : Nat) (p : Produced Entry Dumped), Prepared p.Sources →
      (∀ s ∈ p.Sources, s.FileProvider.remaining ≤ m) → m + 1 ≤ fuel →
      ∃ p' init, producerLoop i fuel p = some (.ok p') ∧ p'.closed = true ∧
        p'.pulls = p.pulls ++ init ++ [0] ∧ (∀ n ∈ init, 0 < n) ∧
        p'.rounds = p.rounds + init.length + 1 ∧ init.length ≤ m := by
  intro m
  induction m with
  | zero =>
    intro fuel p hwf hrem hfuel
    obtain ⟨fuel, rfl⟩ : ∃ f, fuel = f + 1 := ⟨fuel - 1, by omega⟩
    by_cases hcap : (0 : Int) > wrapInt64 (2 * i.MaxParallelism)
    · refine ⟨{ Sources := p.Sources, jobChan := p.jobChan, closed := true,
                warnings := p.warnings, rounds := p.rounds + 1, pulls := p.pulls ++ [0] },
        [], ?_, rfl, ?_, by simp, ?_, by simp⟩
      · rw [producerLoop, produceRound_capped i p.Sources 0 _ hcap]
        rfl
      · simp
      · simp
    · obtain ⟨sources', st', h, -, -, hpull, hdone⟩ := produceRound_uncapped i p.Sources 0
        { done := true, produced := 0, jobChan := p.jobChan, warnings := p.warnings,
          pulled := 0 } hcap hwf
      have hall : ∀ s ∈ p.Sources, s.FileProvider.remaining = 0 := fun s hs => by
        have := hrem s hs
        omega
      have hd : st'.done = true := hdone.mpr ⟨rfl, hall⟩
      have hp : st'.pulled = 0 := by
        rw [hpull]
        simp only [Nat.zero_add, List.length_eq_zero, List.filter_eq_nil_iff]
        intro s hs
        simp [hall s hs]
      refine ⟨{ Sources := sources', jobChan := st'.jobChan, closed := true,
                warnings := st'.warnings, rounds := p.rounds + 1,
                pulls := p.pulls ++ [st'.pulled] },
        [], ?_, rfl, ?_, by simp, ?_, by simp⟩
      · rw [producerLoop, h]
        simp only [hd, if_true]
      · simp [hp]
      · simp
  | succ m ih =>
    intro fuel p hwf hrem hfuel
    obtain ⟨fuel, rfl⟩ : ∃ f, fuel = f + 1 := ⟨fuel - 1, by omega⟩
    by_cases hcap : (0 : Int) > wrapInt64 (2 * i.MaxParallelism)
    · refine ⟨{ Sources := p.Sources, jobChan := p.jobChan, closed := true,
                warnings := p.warnings, rounds := p.rounds + 1, pulls := p.pulls ++ [0] },
        [], ?_, rfl, ?_, by simp, ?_, by simp⟩
      · rw [producerLoop, produceRound_capped i p.Sources 0 _ hcap]
        rfl
      · simp
      · simp
    · obtain ⟨sources', st', h, hwf', hbound, hpull, hdone⟩ := produceRound_uncapped i
        p.Sources 0
        { done := true, produced := 0, jobChan := p.jobChan, warnings := p.warnings,
          pulled := 0 } hcap hwf
      by_cases hall : ∀ s ∈ p.Sources, s.FileProvider.remaining = 0
      · have hd : st'.done = true := hdone.mpr ⟨rfl, hall⟩
        have hp : st'.pulled = 0 := by
          rw [hpull]
          simp only [Nat.zero_add, List.length_eq_zero, List.filter_eq_nil_iff]
          intro s hs
          simp [hall s hs]
        refine ⟨{ Sources := sources', jobChan := st'.jobChan, closed := true,
                  warnings := st'.warnings, rounds := p.rounds + 1,
                  pulls := p.pulls ++ [st'.pulled] },
          [], ?_, rfl, ?_, by simp, ?_, by simp⟩
        · rw [producerLoop, h]
          simp only [hd, if_true]
        · simp [hp]
        · simp
      · have hd : ¬ st'.done = true := fun hd => hall (hdone.mp hd).2
        have hp : 0 < st'.pulled := by
          rw [hpull]
          simp only [Nat.zero_add]
          apply List.length_pos.mpr
          intro hnil
          apply hall
          intro s hs
          have := List.filter_eq_nil_iff.mp hnil s hs
          simp at this
          exact this
        obtain ⟨p', init, h', hclosed, hpulls, hpos, hrounds, hlen⟩ := ih fuel
          { p with Sources := sources', jobChan := st'.jobChan, warnings := st'.warnings,
                   rounds := p.rounds + 1, pulls := p.pulls ++ [st'.pulled] }
          hwf' (hbound m hrem) (by omega)
        refine ⟨p', st'.pulled :: init, ?_, hclosed, ?_, ?_, ?_, ?_⟩
        · rw [producerLoop, h]
          simp only [hd, if_false]
          exact h'
        · rw [hpulls]
          simp
        · intro n hn
          rcases List.mem_cons.mp hn with rfl | hn
          · exact hp
          · exact hpos n hn
        · rw [hrounds]
          simp only [List.length_cons]
          omega
        · simp only [List.length_cons]
          omega

theorem prepareSources_prepared {Entry Dumped : Type}
    (glob : String → Except GoError (List String)) (sources : List (Datasource Entry Dumped)) :
    ∀ prepared, prepareSources glob sources = .ok prepared → Prepared prepared := by
  induction sources with
  | nil =>
    intro prepared h
    simp only [prepareSources] at h
    injection h with h
    subst h
    intro s hs
    simp at hs
  | cons s rest ih =>
    intro prepared h
    rw [prepareSources] at h
    unfold Glob.Prepare at h
    cases hg : glob s.FileProvider.Pattern with
    | error err => simp [hg] at h
    | ok ms =>
      simp only [hg] at h
      cases hr : prepareSources glob rest with
      | error err => simp [hr] at h
      | ok rest' =>
        simp only [hr] at h
        injection h with h
        subst h
        intro x hx
        rcases List.mem_cons.mp hx with rfl | hx
        · rfl
        · exact ih rest' hr x hx

theorem remaining_le_maxMatchCount {Entry Dumped : Type}
    (sources : List (Datasource Entry Dumped)) :
    ∀ s ∈ sources, s.FileProvider.remaining ≤ maxMatchCount sources := by
  induction sources with
  | nil => intro s hs; simp at hs
  | cons x rest ih =>
    intro s hs
    simp only [maxMatchCount, List.map_cons, List.foldr_cons]
    rcases List.mem_cons.mp hs with rfl | hs
    · unfold Glob.remaining
      omega
    · have := ih s hs
      simp only [maxMatchCount] at this
      omega

/-- C17: when `Prepare` succeeds on every source, the goroutine of `produceJobs` ends within
(largest match count over the sources) + 1 rounds, receivers always ready: it needs no more
fuel than that, it does not panic, and it ends with `jobChan` closed, after the last send.
Every round but the last has `NextFile` hand out at least one file, and the last round,
the one after which the loop exits, hands out none. -/
theorem produceJobs_terminates {Entry Dumped : Type}
    (glob : String → Except GoError (List String)) (i : Import Entry Dumped)
    (prepared : List (Datasource Entry Dumped)) (fuel : Nat)
    (hprep : prepareSources glob i.Sources = .ok prepared)
    (hfuel : maxMatchCount prepared + 1 ≤ fuel) :
    ∃ p init, produceJobs glob fuel i = .ok (some (.ok p)) ∧ p.closed = true ∧
      p.rounds ≤ maxMatchCount prepared + 1 ∧
      p.rounds = init.length + 1 ∧ p.pulls = init ++ [0] ∧ ∀ n ∈ init, 0 < n := by
  obtain ⟨p, init, h, hclosed, hpulls, hpos, hrounds, hlen⟩ := producerLoop_terminates i
    (maxMatchCount prepared) fuel
    { Sources := prepared, jobChan := [], closed := false, warnings := [], rounds := 0,
      pulls := [] }
    (prepareSources_prepared glob i.Sources prepared hprep)
    (remaining_le_maxMatchCount prepared) hfuel
  refine ⟨p, init, ?_, hclosed, ?_, ?_, ?_, hpos⟩
  · simp only [produceJobs, hprep]
    rw [h]
  · rw [hrounds]
    simp only [Nat.zero_add]
    omega
  · simpa using hrounds
  · simpa using hpulls

/-- C17 at a concrete input: two sources of two matches each. The bound is 3 rounds; the
loop ends after 2, the first handing out two files and the second none. -/
theorem produceJobs_terminates_witness :
    ∃ p init, produceJobs twoFilesGlob 3 (twoSourcesImport 1) = .ok (some (.ok p)) ∧
      p.closed = true ∧ p.rounds ≤ 2 + 1 ∧
      p.rounds = init.length + 1 ∧ p.pulls = init ++ [0] ∧ ∀ n ∈ init, 0 < n :=
  produceJobs_terminates twoFilesGlob (twoSourcesImport 1) _ 3 rfl (by decide)

/-! ### Theorems about the streaming loader -/

theorem loads_consumed (n : Nat) :
    StreamingLoader.loads n { pending := [] } =
      List.replicate n { entry := [], err := some .EOF } := by
  induction n with
  | zero => rfl
  | succ n ih =>
    rw [StreamingLoader.loads, List.replicate_succ]
    exact congrArg _ ih

theorem loads_pending (records : List Record) (n : Nat) :
    StreamingLoader.loads (records.length + n) { pending := records } =
      records.map (fun r => { entry := r, err := none }) ++
        List.replicate n { entry := [], err := some .EOF } := by
  induction records with
  | nil => simpa using loads_consumed n
  | cons r rest ih =>
    rw [List.length_cons, Nat.add_right_comm, StreamingLoader.loads]
    simp only [StreamingLoader.Load, List.map_cons, List.cons_append]
    exact congrArg _ ih

theorem length_nodesAt (d : Nat) : ∀ n : Node, (nodesAt d n).length = countAt d n := by
  induction d with
  | zero => intro n; rfl
  | succ d ih =>
    intro n
    simp only [nodesAt, countAt, List.length_flatMap]
    congr 1
    exact List.map_congr_left (fun x _ => ih x)

/-- C18: a streaming loader started with depth 0 on a document returns, on its first `Load`,
one record: a map with a single top-level key, the name of the root, holding the whole
document. Every later `Load`, any number of them, returns `io.EOF`. -/
theorem loader_depth_zero (doc : Node) :
    (StreamingLoader.Start { Depth := some 0 } doc).Load =
      ({ entry := doc.record, err := none }, { pending := [] }) ∧
    doc.record = [(doc.name, doc)] ∧ doc.record.length = 1 ∧
    ∀ n, StreamingLoader.loads (1 + n) (StreamingLoader.Start { Depth := some 0 } doc) =
      { entry := doc.record, err := none } ::
        List.replicate n { entry := [], err := some .EOF } := by
  refine ⟨rfl, rfl, rfl, ?_⟩
  intro n
  have := loads_pending [doc.record] n
  simpa [StreamingLoader.Start, LoaderConfig.effectiveDepth, nodesAt] using this

/-- C18 on the catalog of the test `TestEntireXMLLoading`: depth 0 gives one record of
length 1, keyed `catalog`, then `io.EOF`. -/
theorem loader_depth_zero_witness :
    StreamingLoader.loads 2 (StreamingLoader.Start { Depth := some 0 } basicXML) =
      [{ entry := [("catalog", basicXML)], err := none },
       { entry := [], err := some .EOF }] ∧
    basicXML.record.length = 1 :=
  ⟨(loader_depth_zero basicXML).2.2.2 1, (loader_depth_zero basicXML).2.2.1⟩

/-- C19: a streaming loader started with depth `d > 0` on a document returns one record per
node at nesting level `d` below the root, which are the nodes at level `d - 1` of the
children of the root, in document order, each without error, and then `io.EOF` on every
further `Load`; the number of records before `io.EOF` is the count of nodes at level `d`. -/
theorem loader_depth_records (doc : Node) (d : Nat) (hd : 0 < d) (n : Nat) :
    StreamingLoader.loads (countAt d doc + n) (StreamingLoader.Start { Depth := some d } doc) =
      (nodesAt d doc).map (fun node => { entry := node.record, err := none }) ++
        List.replicate n { entry := [], err := some .EOF } ∧
    nodesAt d doc = doc.children.flatMap (nodesAt (d - 1)) ∧
    (nodesAt d doc).length = countAt d doc := by
  refine ⟨?_, ?_, length_nodesAt d doc⟩
  · have := loads_pending ((nodesAt d doc).map Node.record) n
    rw [List.length_map, length_nodesAt] at this
    simpa [StreamingLoader.Start, LoaderConfig.effectiveDepth] using this
  · obtain ⟨k, rfl⟩ : ∃ k, d = k + 1 := ⟨d - 1, by omega⟩
    rfl

/-- C19 on the catalog of the tests. At level 1 the loader returns the two `book` records
and then `io.EOF`, and so does a loader whose depth is not set (`TestBasicXMLLoading`).
At depth 2 the first two records are the `author` and the `title` of the first book and
the third `Load` is not `io.EOF` (`TestDeepXMLLoading`): it returns the `genre`. -/
theorem loader_depth_records_witness :
    StreamingLoader.loads 3 (StreamingLoader.Start { Depth := some 1 } basicXML) =
      [{ entry := [("book", book101)], err := none },
       { entry := [("book", book102)], err := none },
       { entry := [], err := some .EOF }] ∧
    StreamingLoader.loads 3 (StreamingLoader.Start { Depth := none } basicXML) =
      [{ entry := [("book", book101)], err := none },
       { entry := [("book", book102)], err := none },
       { entry := [], err := some .EOF }] ∧
    StreamingLoader.loads 3 (StreamingLoader.Start { Depth := some 2 } basicXML) =
      [{ entry := [("author", textNode "author" "Gambardella, Matthew")], err := none },
       { entry := [("title", textNode "title" "XML Developer\x27s Guide")], err := none },
       { entry := [("genre", textNode "genre" "Computer")], err := none }] ∧
    countAt 2 basicXML = 12 :=
  ⟨(loader_depth_records basicXML 1 (by decide) 1).1, rfl, rfl, rfl⟩

/-! ### Lemmas about the error list of a run -/

theorem Interleaved.snoc_left {α : Type} {xs ys zs : List α} (a : α)
    (h : Interleaved xs ys zs) : Interleaved (xs ++ [a]) ys (zs ++ [a]) := by
  induction h with
  | nil => exact Interleaved.left a Interleaved.nil
  | left b _ ih => exact Interleaved.left b ih
  | right b _ ih => exact Interleaved.right b ih

theorem Interleaved.snoc_right {α : Type} {xs ys zs : List α} (a : α)
    (h : Interleaved xs ys zs) : Interleaved xs (ys ++ [a]) (zs ++ [a]) := by
  induction h with
  | nil => exact Interleaved.right a Interleaved.nil
  | left b _ ih => exact Interleaved.left b ih
  | right b _ ih => exact Interleaved.right b ih

theorem insertErrors_append {File Dumped : Type} (env : Env File Dumped)
    (collection : Collection) (inserts : List (List (Option Dumped)))
    (b : List (Option Dumped)) :
    ∀ k, insertErrors env collection k (inserts ++ [b]) =
      insertErrors env collection k inserts ++
        (match env.insert collection (k + inserts.length) b with
          | some err => [err]
          | none => []) := by
  induction inserts with
  | nil => intro k; simp [insertErrors]
  | cons x rest ih =>
    intro k
    have h := ih (k + 1)
    rw [show k + 1 + rest.length = k + (rest.length + 1) by omega] at h
    show insertErrors env collection k (x :: (rest ++ [b])) =
      insertErrors env collection k (x :: rest) ++ _
    rw [insertErrors, h, insertErrors, List.length_cons, List.append_assoc]

theorem flush_interleaved {File Entry Dumped : Type} (env : Env File Dumped)
    (collection : Collection) (st st' : ProcState Entry Dumped) (decoded : List GoError)
    (h : flush env collection st = .ok st')
    (hi : Interleaved decoded (insertErrors env collection 0 st.inserts) st.result.errors) :
    Interleaved decoded (insertErrors env collection 0 st'.inserts) st'.result.errors := by
  unfold flush at h
  split at h
  · injection h with h
    subst h
    simp only [insertErrors_append, Nat.zero_add]
    cases env.insert collection st.inserts.length (List.take st.batched st.batch) with
    | none => simpa using hi
    | some err => exact hi.snoc_right err
  · exact absurd h (by simp)

theorem transformAndBatch_interleaved {File Entry Dumped : Type}
    (s : Datasource Entry Dumped) (env : Env File Dumped) (collection : Collection)
    (batchSize : Int) (entry : Entry) (st st' : ProcState Entry Dumped)
    (decoded : List GoError)
    (h : transformAndBatch s env collection batchSize entry st = .ok st')
    (hi : Interleaved decoded (insertErrors env collection 0 st.inserts) st.result.errors) :
    Interleaved decoded (insertErrors env collection 0 st'.inserts) st'.result.errors := by
  unfold transformAndBatch at h
  simp only at h
  split at h
  · injection h with h
    subst h
    exact hi
  · split at h
    · injection h with h
      subst h
      exact hi
    · split at h
      · split at h
        · split at h
          · exact absurd h (by simp)
          · rename_i stf hf
            injection h with h
            subst h
            exact flush_interleaved env collection _ stf decoded hf hi
        · injection h with h
          subst h
          exact hi
      · exact absurd h (by simp)

theorem processLoop_interleaved {File Entry Dumped : Type} (s : Datasource Entry Dumped)
    (env : Env File Dumped) (collection : Collection) (batchSize : Int)
    (loader : Loader Entry) :
    ∀ (st st' : ProcState Entry Dumped) (decoded : List GoError),
      processLoop s env collection batchSize loader st = .ok st' →
      Interleaved decoded (insertErrors env collection 0 st.inserts) st.result.errors →
      Interleaved (decoded ++ decodeErrors loader)
        (insertErrors env collection 0 st'.inserts) st'.result.errors := by
  induction loader with
  | nil =>
    intro st st' decoded h hi
    unfold processLoop at h
    simpa [decodeErrors] using flush_interleaved env collection _ st' decoded h hi
  | cons r rest ih =>
    intro st st' decoded h hi
    have hstep : ∀ (st₀ : ProcState Entry Dumped) (dec : List GoError),
        (match transformAndBatch s env collection batchSize r.entry st₀ with
          | .error p => Except.error p
          | .ok st => processLoop s env collection batchSize rest st) = .ok st' →
        Interleaved dec (insertErrors env collection 0 st₀.inserts) st₀.result.errors →
        Interleaved (dec ++ decodeErrors rest)
          (insertErrors env collection 0 st'.inserts) st'.result.errors := by
      intro st₀ dec h₀ hi₀
      split at h₀
      · exact absurd h₀ (by simp)
      · rename_i st1 h1
        exact ih st1 st' dec h₀
          (transformAndBatch_interleaved s env collection batchSize _ _ st1 dec h1 hi₀)
    unfold processLoop at h
    simp only at h
    split at h
    · rename_i heof
      simpa [decodeErrors, heof] using flush_interleaved env collection _ st' decoded h hi
    · rename_i err hne herr
      have hd : decodeErrors (r :: rest) = err :: decodeErrors rest := by
        cases err with
        | EOF => exact absurd rfl hne
        | errorf msg => simp [decodeErrors, herr]
      have hi1 : Interleaved (decoded ++ [err]) (insertErrors env collection 0 st.inserts)
          (st.result.errors ++ [err]) := hi.snoc_left err
      rw [hd, show decoded ++ err :: decodeErrors rest = (decoded ++ [err]) ++ decodeErrors rest
        by simp]
      split at h
      · exact ih _ st' _ h hi1
      · exact hstep
          { st with
            loads := st.loads + 1
            observed := st.observed + 1
            result := { st.result with Failed := st.result.Failed + 1,
                                       errors := st.result.errors ++ [err] } }
          _ h hi1
    · rename_i hnone
      have hd : decodeErrors (r :: rest) = decodeErrors rest := by
        simp [decodeErrors, hnone]
      rw [hd]
      exact hstep { st with loads := st.loads + 1, observed := st.observed + 1 } _ h hi

/-! ### Lemmas about a run that returns, whatever the batch size -/

theorem flush_written_of_ok {File Entry Dumped : Type} (env : Env File Dumped)
    (collection : Collection) (st st' : ProcState Entry Dumped)
    (h : flush env collection st = .ok st') :
    st'.batch = st.batch ∧ st'.batched = st.batched ∧ st'.hooked = st.hooked ∧
    st'.inserts = st.inserts ++ [st.batch.take st.batched] := by
  unfold flush at h
  split at h
  · injection h with h
    subst h
    exact ⟨rfl, rfl, rfl, rfl⟩
  · exact absurd h (by simp)

theorem transformAndBatch_written_of_ok {File Entry Dumped : Type}
    (s : Datasource Entry Dumped) (env : Env File Dumped) (collection : Collection)
    (batchSize : Int) (entry : Entry) (st st' : ProcState Entry Dumped)
    (h : transformAndBatch s env collection batchSize entry st = .ok st')
    (hle : st.batched ≤ st.batch.length) :
    st'.batched ≤ st'.batch.length ∧ st'.hooked = st.hooked ++ [entry] ∧
    st'.inserts.flatten ++ st'.batch.take st'.batched =
      st.inserts.flatten ++ st.batch.take st.batched ++
        ((transformed s entry).map some).toList := by
  unfold transformAndBatch at h
  simp only at h
  cases hP : s.PostLoad entry with
  | error e =>
    have ht : transformed s entry = none := by simp [transformed, hP]
    simp only [hP] at h
    injection h with h
    subst h
    exact ⟨hle, rfl, by simp [ht]⟩
  | ok loaded =>
    simp only [hP] at h
    cases hD : s.PreDump loaded with
    | error e =>
      have ht : transformed s entry = none := by simp [transformed, hP, hD]
      simp only [hD] at h
      injection h with h
      subst h
      exact ⟨hle, rfl, by simp [ht]⟩
    | ok dumped =>
      have ht : transformed s entry = some dumped := by simp [transformed, hP, hD]
      simp only [hD] at h
      split at h
      · rename_i hlt
        have htake : (st.batch.set st.batched (some dumped)).take (st.batched + 1) =
            st.batch.take st.batched ++ [some dumped] :=
          take_succ_set_eq st.batch st.batched (some dumped) hlt
        split at h
        · split at h
          · exact absurd h (by simp)
          · rename_i stf hf
            injection h with h
            subst h
            obtain ⟨hb, -, hh, hi⟩ := flush_written_of_ok env collection _ stf hf
            refine ⟨by simp, hh, ?_⟩
            simp only [hi]
            simp [htake, ht]
        · injection h with h
          subst h
          refine ⟨by simpa using hlt, rfl, ?_⟩
          simp [htake, ht]
      · exact absurd h (by simp)

theorem processLoop_written_of_ok {File Entry Dumped : Type} (s : Datasource Entry Dumped)
    (env : Env File Dumped) (collection : Collection) (batchSize : Int)
    (loader : Loader Entry) :
    ∀ (st st' : ProcState Entry Dumped),
      processLoop s env collection batchSize loader st = .ok st' →
      st.batched ≤ st.batch.length →
      st'.hooked = st.hooked ++ handedToHooks s.IgnoreErrors loader ∧
      st'.inserts.flatten = st.inserts.flatten ++ st.batch.take st.batched ++
        ((handedToHooks s.IgnoreErrors loader).filterMap (transformed s)).map some := by
  induction loader with
  | nil =>
    intro st st' h hle
    unfold processLoop at h
    obtain ⟨-, -, hh, hi⟩ := flush_written_of_ok env collection _ st' h
    exact ⟨by simp [hh, handedToHooks], by simp [hi, handedToHooks]⟩
  | cons r rest ih =>
    intro st st' h hle
    have hstep : ∀ st₀ : ProcState Entry Dumped,
        (match transformAndBatch s env collection batchSize r.entry st₀ with
          | .error p => Except.error p
          | .ok st => processLoop s env collection batchSize rest st) = .ok st' →
        st₀.batched ≤ st₀.batch.length →
        st'.hooked = st₀.hooked ++ r.entry :: handedToHooks s.IgnoreErrors rest ∧
        st'.inserts.flatten = st₀.inserts.flatten ++ st₀.batch.take st₀.batched ++
          ((r.entry :: handedToHooks s.IgnoreErrors rest).filterMap (transformed s)).map
            some := by
      intro st₀ h₀ hle₀
      split at h₀
      · exact absurd h₀ (by simp)
      · rename_i st1 h1
        obtain ⟨hle1, hh1, hw1⟩ := transformAndBatch_written_of_ok s env collection batchSize
          _ _ st1 h1 hle₀
        obtain ⟨hh', hw'⟩ := ih st1 st' h₀ hle1
        refine ⟨by rw [hh', hh1]; simp, ?_⟩
        rw [hw', hw1, List.filterMap_cons]
        cases transformed s r.entry <;> simp
    unfold processLoop at h
    simp only at h
    split at h
    · rename_i heof
      obtain ⟨-, -, hh, hi⟩ := flush_written_of_ok env collection _ st' h
      exact ⟨by simp [hh, handedToHooks, heof], by simp [hi, handedToHooks, heof]⟩
    · rename_i err hne herr
      have hh : handedToHooks s.IgnoreErrors (r :: rest) =
          if s.IgnoreErrors then handedToHooks s.IgnoreErrors rest
          else r.entry :: handedToHooks s.IgnoreErrors rest := by
        cases err with
        | EOF => exact absurd rfl hne
        | errorf msg => simp [handedToHooks, herr]
      rw [hh]
      by_cases hig : s.IgnoreErrors = true
      · simp only [if_pos hig] at h ⊢
        exact ih
          { st with
            loads := st.loads + 1
            observed := st.observed + 1
            result := { st.result with Failed := st.result.Failed + 1,
                                       errors := st.result.errors ++ [err] } }
          st' h hle
      · simp only [if_neg hig] at h ⊢
        exact hstep
          { st with
            loads := st.loads + 1
            observed := st.observed + 1
            result := { st.result with Failed := st.result.Failed + 1,
                                       errors := st.result.errors ++ [err] } }
          h hle
    · rename_i hnone
      have hh : handedToHooks s.IgnoreErrors (r :: rest) =
          r.entry :: handedToHooks s.IgnoreErrors rest := by
        simp [handedToHooks, hnone]
      rw [hh]
      exact hstep { st with loads := st.loads + 1, observed := st.observed + 1 } h hle

theorem processFile_of_ok {File Entry Dumped : Type} (s : Datasource Entry Dumped)
    (env : Env File Dumped) (filename : String) (ldr : File → Except GoError (Loader Entry))
    (collection : Collection) (batchSize : Int) (file : File) (loader : Loader Entry)
    (st : ProcState Entry Dumped)
    (hopen : env.openFile filename = .ok file) (hldr : ldr file = .ok loader)
    (h : processFile s env filename ldr collection batchSize = .ok st) :
    0 ≤ batchSize ∧ batchSize ≤ env.maxSliceLen ∧
    processLoop s env collection batchSize loader
      (ProcState.init
        { File := filename, Collection := s.Collection, Succeeded := 0, Failed := 0,
          errors := [] }
        (List.replicate batchSize.toNat none)) = .ok st := by
  unfold processFile at h
  simp only [hopen, hldr] at h
  split at h
  · exact absurd h (by simp)
  · rename_i hc
    exact ⟨by omega, by omega, h⟩

theorem processFile_returned {File Entry Dumped : Type} (s : Datasource Entry Dumped)
    (env : Env File Dumped) (filename : String) (ldr : File → Except GoError (Loader Entry))
    (collection : Collection) (batchSize : Int) (file : File) (loader : Loader Entry)
    (st : ProcState Entry Dumped)
    (hopen : env.openFile filename = .ok file) (hldr : ldr file = .ok loader)
    (h : processFile s env filename ldr collection batchSize = .ok st) :
    st.hooked = handedToHooks s.IgnoreErrors loader ∧
    st.inserts.flatten =
      ((handedToHooks s.IgnoreErrors loader).filterMap (transformed s)).map some ∧
    st.result.Succeeded =
      ((handedToHooks s.IgnoreErrors loader).filterMap (transformed s)).length ∧
    st.result.Failed = (decodeErrors loader).length +
      ((handedToHooks s.IgnoreErrors loader).filter
        (fun e => (transformed s e).isNone)).length ∧
    Interleaved (decodeErrors loader) (insertErrors env collection 0 st.inserts)
      st.result.errors := by
  obtain ⟨-, -, hloop⟩ := processFile_of_ok s env filename ldr collection batchSize file loader
    st hopen hldr h
  obtain ⟨hh, hw⟩ := processLoop_written_of_ok s env collection batchSize loader _ st hloop
    (by simp [ProcState.init])
  have hacc := processLoop_accounted s env collection batchSize loader _ st hloop
    (Accounted.init env collection _ _ rfl)
  obtain ⟨hf, -⟩ := processLoop_counts s env collection batchSize loader _ st hloop
  have hi := processLoop_interleaved s env collection batchSize loader _ st [] hloop
    (by simpa [ProcState.init, insertErrors] using Interleaved.nil)
  have hw' : st.inserts.flatten =
      ((handedToHooks s.IgnoreErrors loader).filterMap (transformed s)).map some := by
    simpa [ProcState.init] using hw
  refine ⟨by simpa [ProcState.init] using hh, hw', ?_, by simpa [ProcState.init] using hf,
    by simpa using hi⟩
  rw [hacc.1, ← List.length_flatten, hw', List.length_map]

theorem processFile_returns {File Entry Dumped : Type} (s : Datasource Entry Dumped)
    (env : Env File Dumped) (filename : String) (ldr : File → Except GoError (Loader Entry))
    (collection : Collection) (batchSize : Int)
    (hb : 1 ≤ batchSize) (hmax : batchSize ≤ env.maxSliceLen) :
    ∃ st, processFile s env filename ldr collection batchSize = .ok st := by
  cases hopen : env.openFile filename with
  | error err => exact ⟨_, by simp only [processFile, hopen]; rfl⟩
  | ok file =>
    cases hldr : ldr file with
    | error err => exact ⟨_, by simp only [processFile, hopen, hldr]; rfl⟩
    | ok loader =>
      rw [processFile_eq_processLoop s env filename ldr collection batchSize file loader
        (by omega) hmax hopen hldr]
      exact processLoop_ready s env collection batchSize loader _
        (by simp [ProcState.init]; omega) (by simp [ProcState.init]; omega)

theorem processFile_panic {File Entry Dumped : Type} (s : Datasource Entry Dumped)
    (env : Env File Dumped) (filename : String) (ldr : File → Except GoError (Loader Entry))
    (collection : Collection) (batchSize : Int) (p : Panic) (hb : 1 ≤ batchSize)
    (h : processFile s env filename ldr collection batchSize = .error p) :
    p = "makeslice: len out of range" ∧ (env.maxSliceLen : Int) < batchSize := by
  by_cases hmax : batchSize ≤ env.maxSliceLen
  · obtain ⟨st, hst⟩ := processFile_returns s env filename ldr collection batchSize hb hmax
    rw [hst] at h
    exact absurd h (by simp)
  · unfold processFile at h
    simp only at h
    split at h
    · exact absurd h (by simp)
    · split at h
      · exact absurd h (by simp)
      · rw [if_pos (Or.inr (by omega))] at h
        injection h with h
        exact ⟨h.symm, by omega⟩

/-! ### Theorems about processFile, second part -/

/-- C5 (amended): the outcome of `insert` changes nothing but the error list: with any other
`insert` the run makes the same `Load` and hook calls, hands the same batches to `insert`
and ends with the same counts, so processing goes on after a failed write. A run that
returns has `Succeeded` equal to the total size of all the batches handed to `insert`,
failed ones included. Its error list is exactly the decode errors of the loader merged
with the errors the `insert` calls returned: each failed `insert` call contributes its
error once, in call order, appended at the time of the call, and there is no other
entry. A run panics only for a batch size below 1 or above what `make` can allocate. -/
theorem processFile_insert_error_recorded {File Entry Dumped : Type}
    (s : Datasource Entry Dumped) (env : Env File Dumped) (filename : String)
    (ldr : File → Except GoError (Loader Entry)) (collection : Collection) (batchSize : Int) :
    (∀ insert' : Collection → Nat → List (Option Dumped) → Option GoError,
      (processFile s { env with insert := insert' } filename ldr collection batchSize).map
          ProcState.eraseErrors =
        (processFile s env filename ldr collection batchSize).map ProcState.eraseErrors) ∧
    (∀ (st₀ : ProcState Entry Dumped),
      flush env collection st₀ =
        if st₀.batched ≤ st₀.batch.length then
          .ok { st₀ with
            result := { st₀.result with
              errors := st₀.result.errors ++
                (env.insert collection st₀.inserts.length
                  (st₀.batch.take st₀.batched)).toList
              Succeeded := st₀.result.Succeeded + st₀.batched }
            inserts := st₀.inserts ++ [st₀.batch.take st₀.batched] }
        else .error "slice bounds out of range") ∧
    match processFile s env filename ldr collection batchSize with
    | .ok st =>
      st.result.Succeeded = (st.inserts.map List.length).sum ∧
      (∀ k b err, st.inserts[k]? = some b → env.insert collection k b = some err →
        err ∈ st.result.errors) ∧
      ∀ file loader, env.openFile filename = .ok file → ldr file = .ok loader →
        Interleaved (decodeErrors loader) (insertErrors env collection 0 st.inserts)
          st.result.errors
    | .error _ => batchSize ≤ 0 ∨ (env.maxSliceLen : Int) < batchSize := by
  refine ⟨?_, ?_, ?_⟩
  · intro insert'
    unfold processFile
    simp only
    cases env.openFile filename with
    | error err => rfl
    | ok file =>
      simp only
      cases ldr file with
      | error err => rfl
      | ok loader =>
        simp only
        split
        · rfl
        · exact processLoop_eraseErrors s _ env collection batchSize loader _ _ rfl
  · intro st₀
    unfold flush
    split
    · cases hins : env.insert collection st₀.inserts.length (List.take st₀.batched st₀.batch)
        <;> simp [hins]
    · rfl
  · cases h : processFile s env filename ldr collection batchSize with
    | ok st =>
      simp only
      have hacc : Accounted env collection st := by
        unfold processFile at h
        simp only at h
        split at h
        · injection h with h
          subst h
          exact Accounted.init env collection _ _ rfl
        · split at h
          · injection h with h
            subst h
            exact Accounted.init env collection _ _ rfl
          · split at h
            · exact absurd h (by simp)
            · exact processLoop_accounted s env collection batchSize _ _ st h
                (Accounted.init env collection _ _ rfl)
      refine ⟨hacc.1, hacc.2, ?_⟩
      intro file loader hopen hldr
      exact (processFile_returned s env filename ldr collection batchSize file loader st
        hopen hldr h).2.2.2.2
    | error p =>
      simp only
      by_contra hb
      have hp := processFile_panic s env filename ldr collection batchSize p (by omega) h
      omega

/-- C5 (amended) at a concrete input: three records, batch size 2, every `insert` failing.
Both write errors are recorded, once each and in call order, `Succeeded` is 3, and the run
agrees with the run in which every `insert` succeeds on everything but the error list. -/
theorem processFile_insert_error_recorded_witness :
    (processFile (sampleSource true) sampleEnv "a.xml"
        (fun _ => .ok (recordsLoader [1, 2, 3])) sampleCollection 2).map ProcState.eraseErrors =
      (processFile (sampleSource true) failingInsertEnv "a.xml"
        (fun _ => .ok (recordsLoader [1, 2, 3])) sampleCollection 2).map
        ProcState.eraseErrors ∧
    ∃ st, processFile (sampleSource true) failingInsertEnv "a.xml"
        (fun _ => .ok (recordsLoader [1, 2, 3])) sampleCollection 2 = .ok st ∧
      st.inserts = [[some 101, some 102], [some 103]] ∧
      st.result.Succeeded = (st.inserts.map List.length).sum ∧
      GoError.errorf "write failed" ∈ st.result.errors ∧
      Interleaved [] [GoError.errorf "write failed", GoError.errorf "write failed"]
        st.result.errors ∧
      st.result.errors = [.errorf "write failed", .errorf "write failed"] :=
  have h := processFile_insert_error_recorded (sampleSource true) failingInsertEnv "a.xml"
    (fun _ => .ok (recordsLoader [1, 2, 3])) sampleCollection 2
  ⟨h.1 sampleEnv.insert, _, rfl, rfl, h.2.2.1, h.2.2.2.1 0 _ _ rfl rfl,
    h.2.2.2.2 () _ rfl rfl, rfl⟩

/-- C12 (the claim as stated fails): an error-tolerant source, batch size 0, a loader that
returns a decode error, then record 1, then `io.EOF`. The record that follows the decode
error is not written and no result is returned: the run panics at the store into the
empty batch. -/
theorem processFile_tolerant_zero_batchSize_panics :
    (sampleSource true).IgnoreErrors = true ∧
    processFile (sampleSource true) sampleEnv "a.xml"
        (fun _ => .ok [{ entry := 0, err := some (.errorf "bad") }, { entry := 1, err := none }])
        sampleCollection 0 = .error "index out of range" :=
  ⟨rfl, rfl⟩

/-- C12 (amended): for an error-tolerant source, a `Load` call that returns a decode error
adds one to `Failed`, appends the error, leaves the batch, its fill count and the written
batches as they are, and the loop goes on with the next `Load` call. With a batch size of
at least 1 that `make` can allocate the run returns; the entries handed to the hooks are
all the records loaded without error, those before and those after a decode error; the
written batches concatenate to the `PreDump` outputs of the ones that pass both hooks,
`Succeeded` is their number, `Failed` is the number of decode errors plus the number of
records a hook rejected, and the decode errors are in the error list, in order. -/
theorem processFile_tolerant_decode_error {File Entry Dumped : Type}
    (s : Datasource Entry Dumped) (env : Env File Dumped) (filename : String)
    (ldr : File → Except GoError (Loader Entry)) (collection : Collection) (batchSize : Int)
    (file : File) (loader : Loader Entry)
    (hig : s.IgnoreErrors = true) (hb : 1 ≤ batchSize) (hmax : batchSize ≤ env.maxSliceLen)
    (hopen : env.openFile filename = .ok file) (hldr : ldr file = .ok loader) :
    (∀ (r : LoadResult Entry) (rest : Loader Entry) (st : ProcState Entry Dumped)
        (err : GoError), r.err = some err → err ≠ .EOF →
      processLoop s env collection batchSize (r :: rest) st =
        processLoop s env collection batchSize rest
          { st with
            loads := st.loads + 1
            observed := st.observed + 1
            result := { st.result with Failed := st.result.Failed + 1,
                                       errors := st.result.errors ++ [err] } }) ∧
    ∃ st, processFile s env filename ldr collection batchSize = .ok st ∧
      st.hooked = loadedRecords loader ∧
      st.inserts.flatten = ((loadedRecords loader).filterMap (transformed s)).map some ∧
      st.result.Succeeded = ((loadedRecords loader).filterMap (transformed s)).length ∧
      st.result.Failed = (decodeErrors loader).length +
        ((loadedRecords loader).filter (fun e => (transformed s e).isNone)).length ∧
      List.Sublist (decodeErrors loader) st.result.errors ∧
      Interleaved (decodeErrors loader) (insertErrors env collection 0 st.inserts)
        st.result.errors := by
  constructor
  · intro r rest st err herr hne
    cases err with
    | EOF => exact absurd rfl hne
    | errorf msg =>
      rw [processLoop]
      simp only [herr, hig, if_true]
  · obtain ⟨st, h⟩ := processFile_returns s env filename ldr collection batchSize hb hmax
    obtain ⟨hh, hw, hs, hf, hi⟩ := processFile_returned s env filename ldr collection
      batchSize file loader st hopen hldr h
    obtain ⟨-, -, hloop⟩ := processFile_of_ok s env filename ldr collection batchSize file
      loader st hopen hldr h
    obtain ⟨-, he⟩ := processLoop_counts s env collection batchSize loader _ st hloop
    rw [hig, handedToHooks_tolerant] at hh hw hs hf
    exact ⟨st, h, hh, hw, hs, hf, by simpa [ProcState.init] using he, hi⟩

/-- C12 (amended) at a concrete input: an error-tolerant source, batch size 2, a loader that
returns record 1, a decode error, records 2 and 3, then `io.EOF`. All three records are
written, `Succeeded = 3`, `Failed = 1` and the decode error is recorded. -/
theorem processFile_tolerant_decode_error_witness :
    ∃ st, processFile (sampleSource true) sampleEnv "a.xml"
        (fun _ => .ok [{ entry := 1, err := none }, { entry := 0, err := some (.errorf "bad") },
                       { entry := 2, err := none }, { entry := 3, err := none }])
        sampleCollection 2 = .ok st ∧
      st.hooked = [1, 2, 3] ∧
      st.inserts.flatten = [some 101, some 102, some 103] ∧
      st.result.Succeeded = 3 ∧ st.result.Failed = 1 ∧
      List.Sublist [GoError.errorf "bad"] st.result.errors ∧
      Interleaved [GoError.errorf "bad"]
        (insertErrors sampleEnv sampleCollection 0 st.inserts) st.result.errors :=
  (processFile_tolerant_decode_error (sampleSource true) sampleEnv "a.xml"
    (fun _ => .ok [{ entry := 1, err := none }, { entry := 0, err := some (.errorf "bad") },
                   { entry := 2, err := none }, { entry := 3, err := none }])
    sampleCollection 2 () _ rfl (by decide) (by decide) rfl rfl).2

/-- C13: when a record is loaded without error and `PostLoad` returns an error, or `PostLoad`
succeeds and `PreDump` returns an error, the iteration hands the record to the hooks once,
adds exactly one to `Failed`, and the loop goes on with the next `Load` call with the
batch, its fill count, the written batches, `Succeeded` and the error list unchanged.
For the whole run of a file that opens and whose loader is created: whenever `processFile`
returns, every entry was handed to the hooks exactly once, in order; the batches handed to
`insert` hold the `PreDump` outputs of the entries that passed both hooks and nothing
else, so a rejected record is in no `insert` call; `Succeeded` is the number of entries
that passed, and `Failed` is the number of decode errors plus exactly one for each
rejected entry. `processFile` does return for every batch size from 1 up to what `make`
can allocate. -/
theorem processFile_hook_failure {File Entry Dumped : Type} (s : Datasource Entry Dumped)
    (env : Env File Dumped) (filename : String) (ldr : File → Except GoError (Loader Entry))
    (collection : Collection) (batchSize : Int) (file : File) (loader : Loader Entry)
    (hopen : env.openFile filename = .ok file) (hldr : ldr file = .ok loader) :
    (∀ (r : LoadResult Entry) (rest : Loader Entry) (st : ProcState Entry Dumped),
      r.err = none →
      ((∃ e, s.PostLoad r.entry = .error e) ∨
        (∃ loaded e, s.PostLoad r.entry = .ok loaded ∧ s.PreDump loaded = .error e)) →
      processLoop s env collection batchSize (r :: rest) st =
        processLoop s env collection batchSize rest
          { st with
            loads := st.loads + 1
            observed := st.observed + 1
            hooked := st.hooked ++ [r.entry]
            result := { st.result with Failed := st.result.Failed + 1 } }) ∧
    (∀ st, processFile s env filename ldr collection batchSize = .ok st →
      st.hooked = handedToHooks s.IgnoreErrors loader ∧
      st.inserts.flatten =
        ((handedToHooks s.IgnoreErrors loader).filterMap (transformed s)).map some ∧
      st.result.Succeeded =
        ((handedToHooks s.IgnoreErrors loader).filterMap (transformed s)).length ∧
      st.result.Failed = (decodeErrors loader).length +
        ((handedToHooks s.IgnoreErrors loader).filter
          (fun e => (transformed s e).isNone)).length) ∧
    (1 ≤ batchSize → batchSize ≤ env.maxSliceLen →
      ∃ st, processFile s env filename ldr collection batchSize = .ok st) := by
  refine ⟨?_, ?_, ?_⟩
  · intro r rest st hload hhook
    rw [processLoop]
    simp only [hload]
    rcases hhook with ⟨e, hP⟩ | ⟨loaded, e, hP, hD⟩
    · simp only [transformAndBatch, hP]
    · simp only [transformAndBatch, hP, hD]
  · intro st h
    obtain ⟨hh, hw, hs, hf, -⟩ := processFile_returned s env filename ldr collection batchSize
      file loader st hopen hldr h
    exact ⟨hh, hw, hs, hf⟩
  · intro hb hmax
    exact processFile_returns s env filename ldr collection batchSize hb hmax

/-- C13 at a concrete input: records 1 to 4, batch size 2, a `PreDump` hook that rejects
the odd ones. Records 2 and 4 are written, 1 and 3 are in no batch, `Succeeded = 2` and
`Failed = 2`. -/
theorem processFile_hook_failure_witness :
    ∃ st, processFile pickySource sampleEnv "a.xml" (fun _ => .ok (recordsLoader [1, 2, 3, 4]))
        sampleCollection 2 = .ok st ∧
      st.hooked = [1, 2, 3, 4] ∧ st.inserts.flatten = [some 102, some 104] ∧
      st.result.Succeeded = 2 ∧ st.result.Failed = 2 :=
  ⟨_, rfl, (processFile_hook_failure pickySource sampleEnv "a.xml"
    (fun _ => .ok (recordsLoader [1, 2, 3, 4])) sampleCollection 2 () _ rfl rfl).2.1 _ rfl⟩

/-- C20: for a batch size of at least 1, an iteration that starts with a batch of
`batchSize` slots and `batched < batchSize` never fails on the store `batch[batched]` nor on
the slice `batch[:batched]`, and ends with `batched < batchSize` again; from such a state
the whole loop returns, whatever the loader, the hooks and `insert` do. `processFile`
starts its loop in such a state: when it returns, every batch it handed to `insert` holds
at most `batchSize` records; when it panics, the panic is the one of `make` for a batch
size above what can be allocated, never an index or slice panic of the loop; and it does
return for every batch size that `make` can allocate. -/
theorem processFile_index_in_range {File Entry Dumped : Type} (s : Datasource Entry Dumped)
    (env : Env File Dumped) (filename : String) (ldr : File → Except GoError (Loader Entry))
    (collection : Collection) (batchSize : Int) (hb : 1 ≤ batchSize) :
    (∀ (entry : Entry) (st : ProcState Entry Dumped),
      (st.batch.length : Int) = batchSize → st.batched < st.batch.length →
      ∃ st', transformAndBatch s env collection batchSize entry st = .ok st' ∧
        (st'.batch.length : Int) = batchSize ∧ st'.batched < st'.batch.length) ∧
    (∀ (loader : Loader Entry) (st : ProcState Entry Dumped),
      (st.batch.length : Int) = batchSize → st.batched < st.batch.length →
      ∃ st', processLoop s env collection batchSize loader st = .ok st') ∧
    (∀ st, processFile s env filename ldr collection batchSize = .ok st →
      ∀ b ∈ st.inserts, (b.length : Int) ≤ batchSize) ∧
    (∀ p, processFile s env filename ldr collection batchSize = .error p →
      p = "makeslice: len out of range" ∧ (env.maxSliceLen : Int) < batchSize) ∧
    (batchSize ≤ env.maxSliceLen →
      ∃ st, processFile s env filename ldr collection batchSize = .ok st) := by
  refine ⟨?_, ?_, ?_, ?_, ?_⟩
  · intro entry st hlen hlt
    obtain ⟨st', h, hl, hlt'⟩ := transformAndBatch_ready s env collection batchSize entry st
      hlen hlt
    exact ⟨st', h, by rw [hl]; exact hlen, hlt'⟩
  · intro loader st hlen hlt
    exact processLoop_ready s env collection batchSize loader st hlen hlt
  · intro st h b hb'
    cases hopen : env.openFile filename with
    | error err =>
      simp only [processFile, hopen] at h
      injection h with h
      subst h
      simp [ProcState.init] at hb'
    | ok file =>
      cases hldr : ldr file with
      | error err =>
        simp only [processFile, hopen, hldr] at h
        injection h with h
        subst h
        simp [ProcState.init] at hb'
      | ok loader =>
        obtain ⟨-, -, hloop⟩ := processFile_of_ok s env filename ldr collection batchSize file
          loader st hopen hldr h
        have := processLoop_bounded s env collection batchSize loader batchSize.toNat _ st
          hloop (by simp [ProcState.init]) (by simp [ProcState.init]) b hb'
        omega
  · intro p h
    exact processFile_panic s env filename ldr collection batchSize p hb h
  · intro hmax
    exact processFile_returns s env filename ldr collection batchSize hb hmax

/-- C20 at a concrete input: batch size 2, five records of which the second comes with a
decode error, source not error-tolerant. -/
theorem processFile_index_in_range_witness :
    ∃ st, processFile (sampleSource false) failingInsertEnv "a.xml"
        (fun _ => .ok [{ entry := 1, err := none }, { entry := 0, err := some (.errorf "bad") },
                       { entry := 2, err := none }, { entry := 3, err := none },
                       { entry := 4, err := none }])
        sampleCollection 2 = .ok st ∧
      ∀ b ∈ st.inserts, (b.length : Int) ≤ 2 :=
  ⟨_, rfl, (processFile_index_in_range (sampleSource false) failingInsertEnv "a.xml"
    (fun _ => .ok [{ entry := 1, err := none }, { entry := 0, err := some (.errorf "bad") },
                   { entry := 2, err := none }, { entry := 3, err := none },
                   { entry := 4, err := none }])
    sampleCollection 2 (by decide)).2.2.1 _ rfl⟩

end Mongoimport
